import Mathlib

/-!
Shallow embedding of the file-transfer repository (fierzahaikkal/file-transfer).

Sources embedded:
* `src/file_client_new.py` — `FileClient.connect`, `FileClient.receive_file`
  (the tk client with a 3-attempt retry loop);
* `src/flet_client.py` — `FileClient.connect`, `FileClient.receive_file`
  (the flet client, single attempt);
* `src/file_server_new.py` — `FileServer.send_file`;
* `src/flet_server.py` — `FileServer._send_file` (same header bytes).

Modelling conventions:
* Bytes are modelled as `Char` (the headers are ASCII; `bytes.decode()` is the
  identity in the model, payload bytes are opaque).
* The network input of one `receive_file` call is a list of `StreamEvent`s:
  `data bs` is a run of bytes the kernel has buffered, `hup` is an orderly
  close (`recv` returns `b""`), `err` is a `socket.error` raised by `recv`.
  `recv n` returns at most `n` bytes of the first `data` event and leaves the
  remainder buffered, exactly as a stream socket does; an exhausted event list
  behaves as a closed peer (`recv` returns `b""`).
* Wall-clock rate limiting of the progress callback
  (`(time.time() - last_progress_update) > 0.1`) is modelled by an oracle
  `tick : Nat → Bool` consulted at each payload-loop iteration; the progress
  callback itself is assumed to be supplied (`progress_callback` non-None).
* `int((received / size) * 100)` is modelled as exact natural arithmetic
  `received * 100 / size` (floor); Python evaluates it in binary floating
  point, which the model idealises as exact rational arithmetic.
* `int(file_size)` is modelled as a parser of non-negative decimal numerals,
  the form the senders produce; Python's extra leniency (whitespace, signs,
  underscores) is not exercised by any sender of this repository.
* Timestamps (`datetime.now()`) are dropped from ledger records.
-/

/-- A Python value returned by a function; Python compares `True == 1`. -/
inductive PyVal where
  | bool (b : Bool)
  | int (n : Nat)
deriving DecidableEq, Repr

/-- Python `==` on the returned values (booleans compare as 0/1). -/
def pyEq : PyVal → PyVal → Bool
  | .bool a, .bool b => a = b
  | .int a, .int b => a = b
  | .bool a, .int b => (if a then 1 else 0) = b
  | .int a, .bool b => a = (if b then 1 else 0)

/-- The exceptions the embedded code raises: `ConnectionError`, `ValueError`,
and `socket.error` (whose OS-supplied text is modelled by a fixed string). -/
inductive PyErr where
  | connErr (msg : List Char)
  | valueErr (msg : List Char)
  | sockErr
deriving DecidableEq, Repr

/-- `str(e)` of an embedded exception. -/
def errText : PyErr → List Char
  | .connErr m => m
  | .valueErr m => m
  | .sockErr => "socket.error".data

/-- One observable event of the receiving socket, in arrival order. -/
inductive StreamEvent where
  | data (bs : List Char)
  | hup
  | err
deriving DecidableEq, Repr

/-- Result of one `socket.recv` call: a chunk of bytes (empty = peer closed)
or a raised `socket.error`. -/
inductive RecvRes where
  | bytes (bs : List Char)
  | sockRaise
deriving DecidableEq, Repr

/-- `socket.recv(n)`: returns at most `n` bytes from the buffered stream; the
unread remainder of a `data` event stays buffered. An exhausted stream reads
as a closed peer (`b""`). -/
def recv (n : Nat) : List StreamEvent → RecvRes × List StreamEvent
  | [] => (.bytes [], [])
  | .hup :: rest => (.bytes [], rest)
  | .err :: rest => (.sockRaise, rest)
  | .data bs :: rest =>
      let t := bs.take n
      let d := bs.drop n
      (.bytes t, if d.isEmpty then rest else .data d :: rest)

/-- Termination measure: total bytes still buffered plus the event count. -/
def evWeight : StreamEvent → Nat
  | .data bs => bs.length + 1
  | _ => 1

/-- Termination measure of a stream. -/
def weight (s : List StreamEvent) : Nat := (s.map evWeight).sum

theorem recv_bytes_weight {n : Nat} {s s' : List StreamEvent} {b : Char}
    {bs : List Char} (h : recv n s = (.bytes (b :: bs), s')) :
    weight s' < weight s := by
  cases s with
  | nil => simp [recv] at h
  | cons e rest =>
    cases e with
    | hup => simp [recv] at h
    | err => simp [recv] at h
    | data bs0 =>
      simp only [recv] at h
      have h1 : bs0.take n = b :: bs := by
        have := congrArg Prod.fst h
        simpa using this
      have h2 : s' = if (bs0.drop n).isEmpty then rest
          else .data (bs0.drop n) :: rest := by
        have := congrArg Prod.snd h
        simpa using this.symm
      have hbs0 : bs0 ≠ [] := by
        intro hh; rw [hh] at h1; simp at h1
      have hlen : 0 < bs0.length := List.length_pos.mpr hbs0
      have hn : 1 ≤ n := by
        by_contra hh
        push_neg at hh
        have hn0 : n = 0 := by omega
        rw [hn0] at h1; simp at h1
      subst h2
      cases hd : (bs0.drop n).isEmpty with
      | true =>
        simp [hd, weight, evWeight]
      | false =>
        simp [hd, weight, evWeight]
        omega

theorem recv_bytes_length {n : Nat} {s s' : List StreamEvent} {bs : List Char}
    (h : recv n s = (.bytes bs, s')) : bs.length ≤ n := by
  cases s with
  | nil =>
    simp only [recv, Prod.mk.injEq, RecvRes.bytes.injEq] at h
    rw [← h.1]; simp
  | cons e rest =>
    cases e with
    | hup =>
      simp only [recv, Prod.mk.injEq, RecvRes.bytes.injEq] at h
      rw [← h.1]; simp
    | err => simp [recv] at h
    | data bs0 =>
      simp only [recv, Prod.mk.injEq, RecvRes.bytes.injEq] at h
      rw [← h.1]
      simpa using List.length_take_le n bs0

/-! ### Decimal numerals (Python `f"{size}"` and `int(file_size)`) -/

/-- The character of one decimal digit. -/
def digitChar : Nat → Char
  | 0 => '0' | 1 => '1' | 2 => '2' | 3 => '3' | 4 => '4'
  | 5 => '5' | 6 => '6' | 7 => '7' | 8 => '8' | 9 => '9'
  | _ => '?'

/-- Big-endian decimal digits of a positive number (empty for 0). -/
def decimalAux : Nat → List Char
  | 0 => []
  | n + 1 => decimalAux ((n + 1) / 10) ++ [digitChar ((n + 1) % 10)]
decreasing_by exact Nat.div_lt_self (Nat.succ_pos n) (by norm_num)

/-- Python `str` of a natural number, as a byte list. -/
def natToDecimal (n : Nat) : List Char :=
  if n = 0 then ['0'] else decimalAux n

/-- One step of the decimal-parsing fold. -/
def parseStep (a : Nat) (c : Char) : Nat := a * 10 + (c.toNat - 48)

/-- Model of Python `int(...)` restricted to the non-negative decimal
numerals the senders of this repository produce. -/
def parseNat (l : List Char) : Option Nat :=
  if l ≠ [] ∧ l.all Char.isDigit then some (l.foldl parseStep 0) else none

theorem digitChar_toNat {d : Nat} (h : d < 10) :
    (digitChar d).toNat = 48 + d := by
  interval_cases d <;> rfl

theorem digitChar_isDigit {d : Nat} (h : d < 10) :
    (digitChar d).isDigit = true := by
  interval_cases d <;> rfl

theorem decimalAux_all_digit (n : Nat) :
    ∀ c ∈ decimalAux n, c.isDigit = true := by
  induction n using Nat.strong_induction_on with
  | _ n ih =>
    match n with
    | 0 => intro c hc; simp [decimalAux] at hc
    | m + 1 =>
      intro c hc
      rw [decimalAux] at hc
      rcases List.mem_append.mp hc with h | h
      · exact ih ((m + 1) / 10) (Nat.div_lt_self (Nat.succ_pos m) (by norm_num)) c h
      · simp at h
        rw [h]
        exact digitChar_isDigit (Nat.mod_lt _ (by norm_num))

theorem foldl_decimalAux (n : Nat) :
    ∀ a : Nat, (decimalAux n).foldl parseStep a =
      a * 10 ^ (decimalAux n).length + n := by
  induction n using Nat.strong_induction_on with
  | _ n ih =>
    match n with
    | 0 => intro a; simp [decimalAux]
    | m + 1 =>
      intro a
      have hlt : (m + 1) / 10 < m + 1 :=
        Nat.div_lt_self (Nat.succ_pos m) (by norm_num)
      rw [decimalAux, List.foldl_append, ih ((m + 1) / 10) hlt]
      simp only [List.foldl_cons, List.foldl_nil, parseStep, List.length_append,
        List.length_singleton]
      rw [digitChar_toNat (Nat.mod_lt _ (by norm_num))]
      have h48 : 48 + (m + 1) % 10 - 48 = (m + 1) % 10 := by omega
      rw [h48, pow_succ]
      have hdm : (m + 1) / 10 * 10 + (m + 1) % 10 = m + 1 := by omega
      set k := (decimalAux ((m + 1) / 10)).length with hk
      calc (a * 10 ^ k + (m + 1) / 10) * 10 + (m + 1) % 10
          = a * (10 ^ k * 10) + ((m + 1) / 10 * 10 + (m + 1) % 10) := by ring
        _ = a * (10 ^ k * 10) + (m + 1) := by rw [hdm]

theorem decimalAux_ne_nil {n : Nat} (h : 0 < n) : decimalAux n ≠ [] := by
  match n with
  | m + 1 =>
    rw [decimalAux]
    simp

theorem parseNat_natToDecimal (n : Nat) : parseNat (natToDecimal n) = some n := by
  by_cases h : n = 0
  · subst h; decide
  · rw [natToDecimal, if_neg h, parseNat]
    rw [if_pos]
    · congr 1
      have := foldl_decimalAux n 0
      simpa using this
    · constructor
      · exact decimalAux_ne_nil (Nat.pos_of_ne_zero h)
      · rw [List.all_eq_true]
        exact decimalAux_all_digit n

theorem natToDecimal_all_digit (n : Nat) :
    ∀ c ∈ natToDecimal n, c.isDigit = true := by
  intro c hc
  rw [natToDecimal] at hc
  by_cases h : n = 0
  · rw [if_pos h] at hc; simp at hc; rw [hc]; rfl
  · rw [if_neg h] at hc; exact decimalAux_all_digit n c hc

theorem pipe_not_mem_natToDecimal (n : Nat) : '|' ∉ natToDecimal n := by
  intro h
  have := natToDecimal_all_digit n '|' h
  simp [Char.isDigit] at this

theorem nl_not_mem_natToDecimal (n : Nat) : '\n' ∉ natToDecimal n := by
  intro h
  have := natToDecimal_all_digit n '\n' h
  simp [Char.isDigit] at this

/-! ### Python string helpers used by the receivers -/

/-- Python `header.split('|')` (split on every occurrence of the pipe). -/
def splitPipe : List Char → List (List Char)
  | [] => [[]]
  | c :: rest =>
    match splitPipe rest with
    | [] => [[]]
    | h :: t => if c = '|' then [] :: h :: t else (c :: h) :: t

theorem splitPipe_ne_nil (l : List Char) : splitPipe l ≠ [] := by
  cases l with
  | nil => simp [splitPipe]
  | cons c rest =>
    simp only [splitPipe]
    cases h : splitPipe rest with
    | nil => simp
    | cons a t =>
      by_cases hc : c = '|' <;> simp [hc]

theorem splitPipe_no_pipe {a : List Char} (h : '|' ∉ a) : splitPipe a = [a] := by
  induction a with
  | nil => rfl
  | cons c rest ih =>
    have hc : c ≠ '|' := by intro hh; exact h (by simp [hh])
    have hr : '|' ∉ rest := by intro hh; exact h (by simp [hh])
    simp only [splitPipe, ih hr]
    simp [hc]

theorem splitPipe_append {a : List Char} (b : List Char) (h : '|' ∉ a) :
    splitPipe (a ++ '|' :: b) = a :: splitPipe b := by
  induction a with
  | nil =>
    simp only [List.nil_append, splitPipe]
    cases hb : splitPipe b with
    | nil => exact absurd hb (splitPipe_ne_nil b)
    | cons x t => simp
  | cons c rest ih =>
    have hc : c ≠ '|' := by intro hh; exact h (by simp [hh])
    have hr : '|' ∉ rest := by intro hh; exact h (by simp [hh])
    have hu : splitPipe (c :: (rest ++ '|' :: b)) =
        match splitPipe (rest ++ '|' :: b) with
        | [] => [[]]
        | x :: t => if c = '|' then [] :: x :: t else (c :: x) :: t := rfl
    rw [List.cons_append, hu, ih hr]
    simp [hc]

/-- Python `header_data.find(b'\n')` (index of the first newline, if any). -/
def idxOfNl : List Char → Option Nat
  | [] => none
  | c :: rest => if c = '\n' then some 0 else (idxOfNl rest).map (· + 1)

/-- The receivers' split of the raw header buffer at the first newline:
`(header_data[:header_end], header_data[header_end+1:])`. When `find`
returns `-1` (no newline, reachable only on the tk client's last-attempt
socket-error break), Python's slices give `(header_data[:-1], header_data)`. -/
def splitHeaderData (hd : List Char) : List Char × List Char :=
  match idxOfNl hd with
  | some i => (hd.take i, hd.drop (i + 1))
  | none => (hd.dropLast, hd)

theorem idxOfNl_append {a : List Char} (b : List Char) (h : '\n' ∉ a) :
    idxOfNl (a ++ '\n' :: b) = some a.length := by
  induction a with
  | nil => simp [idxOfNl]
  | cons c rest ih =>
    have hc : c ≠ '\n' := by intro hh; exact h (by simp [hh])
    have hr : '\n' ∉ rest := by intro hh; exact h (by simp [hh])
    simp [idxOfNl, hc, ih hr]

theorem splitHeaderData_append {a : List Char} (b : List Char) (h : '\n' ∉ a) :
    splitHeaderData (a ++ '\n' :: b) = (a, b) := by
  rw [splitHeaderData, idxOfNl_append b h]
  show (List.take a.length (a ++ '\n' :: b),
    List.drop (a.length + 1) (a ++ '\n' :: b)) = (a, b)
  rw [Prod.mk.injEq]
  refine ⟨by simpa using List.take_left a ('\n' :: b), ?_⟩
  have hd : List.drop (a.length + 1) (a ++ '\n' :: b) =
      List.drop 1 (List.drop a.length (a ++ '\n' :: b)) := by
    rw [List.drop_drop, Nat.add_comm]
  rw [hd, List.drop_left]
  rfl

/-- Python `os.path.basename`. -/
def basename (p : List Char) : List Char :=
  p.foldl (fun acc c => if c = '/' then [] else acc ++ [c]) []

/-- The extension part of Python `os.path.splitext(p)[1]`: the suffix of the
last path component from its last dot, unless every character before that dot
in the component is itself a dot. -/
def splitextExt (p : List Char) : List Char :=
  let b := basename p
  match (List.range b.length).foldl
      (fun acc i => if b.getD i ' ' = '.' then some i else acc) none with
  | none => []
  | some j => if (b.take j).all (· = '.') then [] else b.drop j

/-! ### Message and status strings -/

def notConnectedMsg : List Char := "Not connected to server".data

def connClosedHdrMsg : List Char :=
  "Connection closed before receiving file header".data

def oversizedMsg : List Char :=
  "File header too large, possibly invalid data".data

def invalidHdrMsg : List Char := "Invalid file header format".data

def connLostMsg : List Char := "Connection lost during transfer".data

/-- Model of the text of the `ValueError` Python raises when
`header.split('|')` does not unpack into two names (flet client only). -/
def unpackErrMsg : List Char := "cannot unpack header fields".data

def completeStr : List Char := "Complete".data

def failedStatus (e : PyErr) : List Char := "Failed: ".data ++ errText e

def incompleteStatus (received size : Nat) : List Char :=
  "Incomplete (".data ++ natToDecimal received ++ "/".data ++
    natToDecimal size ++ " bytes)".data

/-! ### Header codec -/

/-- The header bytes both senders write before the payload:
`file_server_new.py` sends `f"{file_name}|{file_size}".encode() + b"\n"` and
`flet_server.py` sends `f"{file_name}|{file_size}\n".encode()` — the same
two-field byte sequence. -/
def serverEncode (name : List Char) (size : Nat) : List Char :=
  name ++ '|' :: natToDecimal size ++ ['\n']

/-- Modelled from the spec: the three-field header line
`"{name}|{size}|{extension}\n"` of §4.2 (Header Codec, Encode). No sender
under `src/` produces this form; it is the shape `file_client_new.py`'s
parser expects. -/
def encodeHeader3 (name : List Char) (size : Nat) (ext : List Char) :
    List Char :=
  name ++ '|' :: natToDecimal size ++ '|' :: ext ++ ['\n']

/-- Header parsing of `file_client_new.py` (lines 95-99):
`file_name, file_size, file_extension = header.split('|')` followed by
`int(file_size)`; any `ValueError` becomes `"Invalid file header format"`. -/
def parseHeaderC (header : List Char) :
    Except PyErr (List Char × Nat × List Char) :=
  match splitPipe header with
  | [n, szs, ext] =>
    match parseNat szs with
    | some sz => .ok (n, sz, ext)
    | none => .error (.valueErr invalidHdrMsg)
  | _ => .error (.valueErr invalidHdrMsg)

/-- Header parsing of `flet_client.py` (lines 75-76):
`file_name, file_size = header.split('|')` and `int(file_size)`, with no
surrounding try/except (the `ValueError` propagates). -/
def parseHeaderF (header : List Char) : Except PyErr (List Char × Nat) :=
  match splitPipe header with
  | [n, szs] =>
    match parseNat szs with
    | some sz => .ok (n, sz)
    | none => .error (.valueErr invalidHdrMsg)
  | _ => .error (.valueErr unpackErrMsg)

theorem parseHeaderC_threeField {name ext : List Char} {size : Nat}
    (hn : '|' ∉ name) (he : '|' ∉ ext) :
    parseHeaderC (name ++ '|' :: (natToDecimal size ++ '|' :: ext)) =
      .ok (name, size, ext) := by
  rw [parseHeaderC, splitPipe_append _ hn,
    splitPipe_append _ (pipe_not_mem_natToDecimal size), splitPipe_no_pipe he]
  simp [parseNat_natToDecimal]

theorem parseHeaderF_twoField {name : List Char} {size : Nat}
    (hn : '|' ∉ name) :
    parseHeaderF (name ++ '|' :: natToDecimal size) = .ok (name, size) := by
  rw [parseHeaderF, splitPipe_append _ hn,
    splitPipe_no_pipe (pipe_not_mem_natToDecimal size)]
  simp [parseNat_natToDecimal]

/-! ### Ledger records -/

/-- One entry of the client's `download_history` (timestamp dropped). -/
structure LedgerRec where
  fileName : List Char
  originalName : List Char
  size : Nat
  path : List Char
  status : List Char
deriving DecidableEq, Repr

/-- The success record both clients append
(`"status": "Complete"`, `file_client_new.py` lines 154-161). -/
def completeRec (path name : List Char) (size : Nat) : LedgerRec :=
  { fileName := basename path, originalName := name, size := size,
    path := path, status := completeStr }

/-- The terminal-failure record both clients append
(`"status": f"Failed: {...}"`). -/
def failedRec (path : List Char) (e : PyErr) : LedgerRec :=
  { fileName := if path.isEmpty then "unknown".data else basename path,
    originalName := "unknown".data, size := 0,
    path := if path.isEmpty then "unknown".data else path,
    status := failedStatus e }

/-- The record the flet client appends on its (always returned-true) main
path: `"Complete" if received_bytes >= file_size else f"Incomplete ..."`. -/
def fletFinalRec (path name : List Char) (size received : Nat) : LedgerRec :=
  { fileName := basename path, originalName := name, size := size,
    path := path,
    status := if received ≥ size then completeStr
      else incompleteStatus received size }

/-! ### Connection manager (`FileClient.connect`, identical in both clients) -/

/-- The mutable state of a `FileClient` relevant to `connect`:
`self.socket` (an opaque socket identity) and `self.connected`. -/
structure ClientState where
  sock : Option Nat
  connected : Bool
deriving DecidableEq, Repr

/-- `FileClient.connect(host, port)`: returns `False` at once when already
connected; otherwise replaces `self.socket` with a fresh socket object
(`newSock`) and dials — `dialOk` is whether `socket.connect` succeeds. The
third component reports whether a dial was attempted at all. -/
def connectFC (st : ClientState) (dialOk : Bool) (newSock : Nat) :
    Bool × ClientState × Bool :=
  if st.connected then (false, st, false)
  else (dialOk, { sock := some newSock, connected := dialOk }, true)

/-! ### Header-reading loops -/

/-- Outcome of the tk client's header loop (lines 74-88): normal exit with a
newline buffered, the last-attempt `socket.error` break (which assigns
`last_exception` and leaves the loop with no newline), or a raised error. -/
inductive HeadOut where
  | ok (hd : List Char) (s : List StreamEvent)
  | sockBreak (hd : List Char) (s : List StreamEvent)
  | raisedH (e : PyErr) (s : List StreamEvent)
deriving DecidableEq, Repr

/-- The header loop of `file_client_new.py` (lines 74-88): accumulate
`recv(4096)` chunks until a newline appears; an empty read raises
`ConnectionError`; more than 1,024,000 buffered bytes raise `ValueError`;
a `socket.error` is re-raised when retries remain (`notLast`) and otherwise
recorded and broken out of. -/
def headerLoopC (notLast : Bool) (acc : List Char) (s : List StreamEvent) :
    HeadOut :=
  if '\n' ∈ acc then .ok acc s
  else
    match hr : recv 4096 s with
    | (.sockRaise, s') =>
      if notLast then .raisedH .sockErr s' else .sockBreak acc s'
    | (.bytes [], s') => .raisedH (.connErr connClosedHdrMsg) s'
    | (.bytes (b :: bs), s') =>
      let acc' := acc ++ b :: bs
      if acc'.length > 1024000 then .raisedH (.valueErr oversizedMsg) s'
      else headerLoopC notLast acc' s'
termination_by weight s
decreasing_by exact recv_bytes_weight hr

/-- Outcome of the flet client's header loop. -/
inductive HeadOutF where
  | okF (hd : List Char) (s : List StreamEvent)
  | raisedF (e : PyErr) (s : List StreamEvent)
deriving DecidableEq, Repr

/-- The header loop of `flet_client.py` (lines 63-68): accumulate
`recv(4096)` chunks until a newline appears; an empty read raises
`ConnectionError`. There is no size cap and no `socket.error` handler. -/
def headerLoopF (acc : List Char) (s : List StreamEvent) : HeadOutF :=
  if '\n' ∈ acc then .okF acc s
  else
    match hr : recv 4096 s with
    | (.sockRaise, s') => .raisedF .sockErr s'
    | (.bytes [], s') => .raisedF (.connErr connClosedHdrMsg) s'
    | (.bytes (b :: bs), s') => headerLoopF (acc ++ b :: bs) s'
termination_by weight s
decreasing_by exact recv_bytes_weight hr

/-! ### Payload loop (shared shape of both clients) -/

/-- How the payload loop ended. `done`: `received >= size`. `closedBreak`:
empty read with no retries remaining (plain `break`). `raisedK`: an exception
propagates out of the loop. `sockRetry`: `socket.error` with retries
remaining — the tk client assigns `last_exception`, sleeps and breaks. -/
inductive PayKind where
  | done
  | closedBreak
  | raisedK (e : PyErr)
  | sockRetry
deriving DecidableEq, Repr

/-- Result and observables of the payload loop. -/
structure PayOut where
  kind : PayKind
  file : List Char
  received : Nat
  s : List StreamEvent
  prog : List (Nat × Nat × Nat)
  recvCalls : Nat
deriving DecidableEq, Repr

/-- The payload loop. With `notLast := true` this is `file_client_new.py`
lines 121-145 on a non-final attempt; with `notLast := false` it is both that
code on the final attempt and, verbatim, `flet_client.py` lines 89-100
(an empty read breaks, a `socket.error` propagates). Each iteration requests
`min(4096, size - received)` bytes, appends the chunk to the file, adds its
length to `received`, and fires the rate-limited progress callback
`(int(received / size * 100), received, size)` when the time oracle `tick`
allows. -/
def payloadLoop (notLast : Bool) (size : Nat) (tick : Nat → Bool)
    (s : List StreamEvent) (file : List Char) (received : Nat)
    (prog : List (Nat × Nat × Nat)) (k : Nat) : PayOut :=
  if received < size then
    match hr : recv (min 4096 (size - received)) s with
    | (.sockRaise, s') =>
      if notLast then
        { kind := .sockRetry, file, received, s := s', prog,
          recvCalls := k + 1 }
      else
        { kind := .raisedK .sockErr, file, received, s := s', prog,
          recvCalls := k + 1 }
    | (.bytes [], s') =>
      if notLast then
        { kind := .raisedK (.connErr connLostMsg), file, received, s := s',
          prog, recvCalls := k + 1 }
      else
        { kind := .closedBreak, file, received, s := s', prog,
          recvCalls := k + 1 }
    | (.bytes (b :: bs), s') =>
      let chunk := b :: bs
      let received' := received + chunk.length
      let prog' := if tick k then
          prog ++ [(received' * 100 / size, received', size)]
        else prog
      payloadLoop notLast size tick s' (file ++ chunk) received' prog' (k + 1)
  else
    { kind := .done, file, received, s, prog, recvCalls := k }
termination_by weight s
decreasing_by exact recv_bytes_weight hr

/-! ### Sender (`FileServer.send_file`, `file_server_new.py` lines 93-130) -/

/-- Observables of the sender's chunk loop. -/
structure SendOut where
  wire : List Char
  chunks : List (List Char)
  prog : List Nat
  sent : Nat
deriving DecidableEq, Repr

/-- The sender's loop (lines 100-113): `file.read(4096)` until empty, each
chunk written whole with `sendall`, then
`progress_callback(int(sent_bytes / file_size * 100))`. -/
def sendLoop (size : Nat) (content : List Char) (sent : Nat)
    (wire : List Char) (chunks : List (List Char)) (prog : List Nat) :
    SendOut :=
  match content with
  | [] => { wire, chunks, prog, sent }
  | c :: cs =>
    let chunk := (c :: cs).take 4096
    let rest := (c :: cs).drop 4096
    let sent' := sent + chunk.length
    sendLoop size rest sent' (wire ++ chunk) (chunks ++ [chunk])
      (prog ++ [sent' * 100 / size])
termination_by content.length
decreasing_by simp; omega

/-- Full result of `send_file` (success path). -/
structure SendRes where
  wire : List Char
  chunks : List (List Char)
  prog : List Nat
  retVal : PyVal
  records : List LedgerRec
deriving DecidableEq, Repr

/-- `FileServer.send_file(client_socket, file_path, progress_callback)` of
`file_server_new.py` on its success path: writes the two-field header line,
streams the file in chunks, appends a Complete transfer record, and
`return True`. Failures of the sending socket itself are outside the model
(no claim concerns them). -/
def sendFile (path content client : List Char) : SendRes :=
  let size := content.length
  let name := basename path
  let hdr := serverEncode name size
  let o := sendLoop size content 0 hdr [] []
  let rec0 : LedgerRec :=
    { fileName := name, originalName := name, size := size,
      path := client, status := completeStr }
  { wire := o.wire, chunks := o.chunks, prog := o.prog, retVal := .bool true,
    records := [rec0] }

/-! ### `FileClient.receive_file` (tk client, `file_client_new.py` 57-190) -/

/-- Destination-file mode chosen at line 113:
`'ab' if attempt > 0 and os.path.exists(save_path) else 'wb'`. -/
inductive FileMode where
  | wb
  | ab
deriving DecidableEq, Repr

/-- Ghost observations of one attempt that reached the payload phase. -/
structure AttemptTrace where
  attempt : Nat
  mode : FileMode
  fileSize : Nat
  leftover : List Char
  receivedInit : Nat
  receivedFinal : Nat
  recvCalls : Nat
  written : List Char
deriving DecidableEq, Repr

/-- How one attempt of the retry loop ended: `return True`; an exception
reaching the outer `except` (at `attempt < 2` it is caught, otherwise
re-raised at line 173); or the try-body completing without return, with
`upd` the value assigned to `last_exception` inside the attempt, if any. -/
inductive StepRes where
  | retTrue
  | raisedS (e : PyErr)
  | fell (upd : Option PyErr)
deriving DecidableEq, Repr

/-- Result of one attempt: its outcome, the records it appended, the
(possibly extension-extended) `save_path`, the destination file, the
remaining stream, the progress calls and the attempt trace. -/
structure StepOut where
  res : StepRes
  records : List LedgerRec
  savePath : List Char
  file : Option (List Char)
  s : List StreamEvent
  prog : List (Nat × Nat × Nat)
  traces : List AttemptTrace
deriving DecidableEq, Repr

/-- The body of one attempt after the header loop (lines 90-164): split the
buffer at the first newline, parse the three-field header, append the
server's extension when `save_path` has none, open the destination
(`'ab'` on a retry when it exists, else `'wb'` — leftover bytes are written
only in `'wb'` mode), run the payload loop, and on
`received_bytes >= file_size` fire the final 100% callback, append the
Complete record and return `True`. `broke` records whether the header loop
exited through its last-attempt `socket.error` break (which assigned
`last_exception`). -/
def attemptBody (a : Nat) (broke : Bool) (savePath : List Char)
    (file0 : Option (List Char)) (hd : List Char) (s1 : List StreamEvent)
    (tick : Nat → Bool) : StepOut :=
  let notLast := decide (a < 2)
  let pr := splitHeaderData hd
  match parseHeaderC pr.1 with
  | .error e =>
    { res := .raisedS e, records := [], savePath, file := file0, s := s1,
      prog := [], traces := [] }
  | .ok (name, size, ext) =>
    let savePath' := if splitextExt savePath = [] then savePath ++ ext
      else savePath
    let remaining := pr.2
    let received0 := remaining.length
    let mode : FileMode := if a > 0 ∧ file0.isSome then .ab else .wb
    let fileOpen := match mode with
      | .wb => ([] : List Char)
      | .ab => file0.getD []
    let fileStart := if mode = .wb ∧ remaining ≠ [] then fileOpen ++ remaining
      else fileOpen
    let p := payloadLoop notLast size tick s1 fileStart received0 [] 0
    let tr : AttemptTrace :=
      { attempt := a, mode := mode, fileSize := size, leftover := remaining,
        receivedInit := received0, receivedFinal := p.received,
        recvCalls := p.recvCalls, written := p.file.drop fileOpen.length }
    match p.kind with
    | .raisedK e =>
      { res := .raisedS e, records := [], savePath := savePath',
        file := some p.file, s := p.s, prog := p.prog, traces := [tr] }
    | _ =>
      if p.received ≥ size then
        { res := .retTrue, records := [completeRec savePath' name size],
          savePath := savePath', file := some p.file, s := p.s,
          prog := p.prog ++ [(100, p.received, size)], traces := [tr] }
      else
        { res := .fell (if p.kind = .sockRetry ∨ broke = true then
            some .sockErr else none),
          records := [], savePath := savePath', file := some p.file,
          s := p.s, prog := p.prog, traces := [tr] }

/-- One attempt of the retry loop, from the header loop on. -/
def attemptStep (a : Nat) (savePath : List Char) (file0 : Option (List Char))
    (s : List StreamEvent) (tick : Nat → Bool) : StepOut :=
  let notLast := decide (a < 2)
  match headerLoopC notLast [] s with
  | .raisedH e s1 =>
    { res := .raisedS e, records := [], savePath, file := file0, s := s1,
      prog := [], traces := [] }
  | .ok hd s1 => attemptBody a false savePath file0 hd s1 tick
  | .sockBreak hd s1 => attemptBody a true savePath file0 hd s1 tick

/-- Outcome of a whole `receive_file` call: a returned Python value or a
raised exception. -/
inductive Outcome where
  | ret (v : PyVal)
  | raised (e : PyErr)
deriving DecidableEq, Repr

/-- Observables of a whole `receive_file` call: its outcome, the history
records appended during the call, the destination file, the progress-callback
invocations `(percent, received, total)`, and the attempt traces. -/
structure RunOut where
  outcome : Outcome
  records : List LedgerRec
  file : Option (List Char)
  prog : List (Nat × Nat × Nat)
  traces : List AttemptTrace
deriving DecidableEq, Repr

/-- The retry loop `for attempt in range(MAX_RETRIES)` (lines 66-190).
On `attempt > 0` the code first calls
`self.connect(self.socket.getsockname()[0], self.socket.getsockname()[1])`
and `continue`s when it returns `False`. An exception of a non-final attempt
sets `last_exception`, sleeps and continues; on the final attempt it is
re-raised as is. After the loop, if `last_exception` is set, a
`Failed: {str(last_exception)}` record is appended and the exception
re-raised; otherwise the function returns `False`. -/
def attemptsLoopC : List Nat → ClientState → List Char →
    Option (List Char) → List StreamEvent → (Nat → Bool) → (Nat → Bool) →
    Option PyErr → List LedgerRec → List (Nat × Nat × Nat) →
    List AttemptTrace → RunOut
  | [], _, savePath, file, _, _, _, lastExc, recs, prog, traces =>
    match lastExc with
    | some e =>
      { outcome := .raised e, records := recs ++ [failedRec savePath e],
        file := file, prog := prog, traces := traces }
    | none =>
      { outcome := .ret (.bool false), records := recs, file := file,
        prog := prog, traces := traces }
  | a :: rest, st, savePath, file, s, tick, dial, lastExc, recs, prog,
      traces =>
    let proceed : ClientState → RunOut := fun stGo =>
      let o := attemptStep a savePath file s tick
      match o.res with
      | .retTrue =>
        { outcome := .ret (.bool true), records := recs ++ o.records,
          file := o.file, prog := prog ++ o.prog,
          traces := traces ++ o.traces }
      | .raisedS e =>
        if a < 2 then
          attemptsLoopC rest stGo o.savePath o.file o.s tick dial (some e)
            (recs ++ o.records) (prog ++ o.prog) (traces ++ o.traces)
        else
          { outcome := .raised e, records := recs ++ o.records,
            file := o.file, prog := prog ++ o.prog,
            traces := traces ++ o.traces }
      | .fell upd =>
        attemptsLoopC rest stGo o.savePath o.file o.s tick dial
          (match upd with | some e => some e | none => lastExc)
          (recs ++ o.records) (prog ++ o.prog) (traces ++ o.traces)
    if a > 0 then
      match connectFC st (dial a) a with
      | (okc, st2, _) =>
        if okc then proceed st2
        else attemptsLoopC rest st2 savePath file s tick dial lastExc recs
          prog traces
    else proceed st

/-- `FileClient.receive_file(save_path, progress_callback)` of
`file_client_new.py`: raises `ConnectionError("Not connected to server")`
before the loop when `self.connected` is false (no record is appended), then
runs the three attempts. `dial a` is the outcome `socket.connect` would have
on the attempt-`a` reconnect; `file0` is the pre-existing destination file. -/
def receiveC (st : ClientState) (savePath : List Char)
    (file0 : Option (List Char)) (s : List StreamEvent) (tick : Nat → Bool)
    (dial : Nat → Bool) : RunOut :=
  if st.connected then
    attemptsLoopC [0, 1, 2] st savePath file0 s tick dial none [] [] []
  else
    { outcome := .raised (.connErr notConnectedMsg), records := [],
      file := file0, prog := [], traces := [] }

/-! ### `FileClient.receive_file` (flet client, `flet_client.py` 56-133) -/

/-- The flet client's `except Exception` handler (lines 120-133): append a
`Failed: {str(e)}` record and re-raise. -/
def fletFailOut (savePath : List Char) (e : PyErr)
    (file : Option (List Char)) (prog : List (Nat × Nat × Nat))
    (traces : List AttemptTrace) : RunOut :=
  { outcome := .raised e, records := [failedRec savePath e], file := file,
    prog := prog, traces := traces }

/-- `FileClient.receive_file(save_path, progress_callback)` of
`flet_client.py`: single attempt, two-field header, destination always opened
`'wb'` with the leftover written first, payload loop in which an empty read
merely `break`s, one unconditional final `progress_callback(100, ...)`, and a
record whose status is `Complete` or `Incomplete (r/N bytes)`; the function
then returns `True`. Any exception yields a `Failed:` record and re-raise. -/
def receiveF (st : ClientState) (savePath : List Char)
    (file0 : Option (List Char)) (s : List StreamEvent) (tick : Nat → Bool) :
    RunOut :=
  if st.connected then
    match headerLoopF [] s with
    | .raisedF e _ => fletFailOut savePath e file0 [] []
    | .okF hd s1 =>
      let pr := splitHeaderData hd
      match parseHeaderF pr.1 with
      | .error e => fletFailOut savePath e file0 [] []
      | .ok (name, size) =>
        let remaining := pr.2
        let received0 := remaining.length
        let p := payloadLoop false size tick s1 remaining received0 [] 0
        let tr : AttemptTrace :=
          { attempt := 0, mode := .wb, fileSize := size,
            leftover := remaining, receivedInit := received0,
            receivedFinal := p.received, recvCalls := p.recvCalls,
            written := p.file }
        match p.kind with
        | .raisedK e => fletFailOut savePath e (some p.file) p.prog [tr]
        | _ =>
          { outcome := .ret (.bool true),
            records := [fletFinalRec savePath name size p.received],
            file := some p.file, prog := p.prog ++ [(100, p.received, size)],
            traces := [tr] }
  else
    { outcome := .raised (.connErr notConnectedMsg), records := [],
      file := file0, prog := [], traces := [] }

/-! ### Step lemmas for the recursive loops -/

theorem payloadLoop_stop {notLast : Bool} {size : Nat} {tick : Nat → Bool}
    {s : List StreamEvent} {file : List Char} {received : Nat}
    {prog : List (Nat × Nat × Nat)} {k : Nat} (h : ¬ received < size) :
    payloadLoop notLast size tick s file received prog k =
      { kind := .done, file := file, received := received, s := s,
        prog := prog, recvCalls := k } := by
  rw [payloadLoop.eq_def]
  simp only [if_neg h]

theorem payloadLoop_step_sock {notLast : Bool} {size : Nat} {tick : Nat → Bool}
    {s s' : List StreamEvent} {file : List Char} {received : Nat}
    {prog : List (Nat × Nat × Nat)} {k : Nat}
    (h : received < size)
    (hr : recv (min 4096 (size - received)) s = (.sockRaise, s')) :
    payloadLoop notLast size tick s file received prog k =
      (if notLast then
        { kind := .sockRetry, file := file, received := received, s := s',
          prog := prog, recvCalls := k + 1 }
      else
        { kind := .raisedK .sockErr, file := file, received := received,
          s := s', prog := prog, recvCalls := k + 1 } : PayOut) := by
  rw [payloadLoop.eq_def]
  simp only [if_pos h]
  split
  · rename_i s2 heq
    rw [hr] at heq
    obtain ⟨rfl⟩ := heq
    rfl
  · rename_i s2 heq
    rw [hr] at heq
    simp at heq
  · rename_i b bs s2 heq
    rw [hr] at heq
    simp at heq

theorem payloadLoop_step_closed {notLast : Bool} {size : Nat}
    {tick : Nat → Bool} {s s' : List StreamEvent} {file : List Char}
    {received : Nat} {prog : List (Nat × Nat × Nat)} {k : Nat}
    (h : received < size)
    (hr : recv (min 4096 (size - received)) s = (.bytes [], s')) :
    payloadLoop notLast size tick s file received prog k =
      (if notLast then
        { kind := .raisedK (.connErr connLostMsg), file := file,
          received := received, s := s', prog := prog, recvCalls := k + 1 }
      else
        { kind := .closedBreak, file := file, received := received, s := s',
          prog := prog, recvCalls := k + 1 } : PayOut) := by
  rw [payloadLoop.eq_def]
  simp only [if_pos h]
  split
  · rename_i s2 heq
    rw [hr] at heq
    simp at heq
  · rename_i s2 heq
    rw [hr] at heq
    obtain ⟨rfl⟩ := heq
    rfl
  · rename_i b bs s2 heq
    rw [hr] at heq
    simp at heq

theorem payloadLoop_step_data {notLast : Bool} {size : Nat}
    {tick : Nat → Bool} {s s' : List StreamEvent} {file : List Char}
    {received : Nat} {prog : List (Nat × Nat × Nat)} {k : Nat} {b : Char}
    {bs : List Char}
    (h : received < size)
    (hr : recv (min 4096 (size - received)) s = (.bytes (b :: bs), s')) :
    payloadLoop notLast size tick s file received prog k =
      payloadLoop notLast size tick s' (file ++ b :: bs)
        (received + (b :: bs).length)
        (if tick k then
          prog ++ [((received + (b :: bs).length) * 100 / size,
            received + (b :: bs).length, size)]
        else prog) (k + 1) := by
  rw [payloadLoop.eq_def]
  simp only [if_pos h]
  split
  · rename_i s2 heq
    rw [hr] at heq
    simp at heq
  · rename_i s2 heq
    rw [hr] at heq
    simp at heq
  · rename_i b2 bs2 s2 heq
    rw [hr] at heq
    simp only [Prod.mk.injEq, RecvRes.bytes.injEq, List.cons.injEq] at heq
    obtain ⟨⟨rfl, rfl⟩, rfl⟩ := heq
    rfl

theorem headerLoopC_found {notLast : Bool} {acc : List Char}
    {s : List StreamEvent} (h : '\n' ∈ acc) :
    headerLoopC notLast acc s = .ok acc s := by
  rw [headerLoopC.eq_def]
  simp only [if_pos h]

theorem headerLoopC_step_sock {notLast : Bool} {acc : List Char}
    {s s' : List StreamEvent} (h : '\n' ∉ acc)
    (hr : recv 4096 s = (.sockRaise, s')) :
    headerLoopC notLast acc s =
      (if notLast then .raisedH .sockErr s' else .sockBreak acc s') := by
  rw [headerLoopC.eq_def]
  simp only [if_neg h]
  split
  · rename_i s2 heq
    rw [hr] at heq
    obtain ⟨rfl⟩ := heq
    rfl
  · rename_i s2 heq
    rw [hr] at heq
    simp at heq
  · rename_i b bs s2 heq
    rw [hr] at heq
    simp at heq

theorem headerLoopC_step_closed {notLast : Bool} {acc : List Char}
    {s s' : List StreamEvent} (h : '\n' ∉ acc)
    (hr : recv 4096 s = (.bytes [], s')) :
    headerLoopC notLast acc s = .raisedH (.connErr connClosedHdrMsg) s' := by
  rw [headerLoopC.eq_def]
  simp only [if_neg h]
  split
  · rename_i s2 heq
    rw [hr] at heq
    simp at heq
  · rename_i s2 heq
    rw [hr] at heq
    obtain ⟨rfl⟩ := heq
    rfl
  · rename_i b bs s2 heq
    rw [hr] at heq
    simp at heq

theorem headerLoopC_step_data {notLast : Bool} {acc : List Char}
    {s s' : List StreamEvent} {b : Char} {bs : List Char} (h : '\n' ∉ acc)
    (hr : recv 4096 s = (.bytes (b :: bs), s')) :
    headerLoopC notLast acc s =
      (if (acc ++ b :: bs).length > 1024000 then
        .raisedH (.valueErr oversizedMsg) s'
      else headerLoopC notLast (acc ++ b :: bs) s') := by
  rw [headerLoopC.eq_def]
  simp only [if_neg h]
  split
  · rename_i s2 heq
    rw [hr] at heq
    simp at heq
  · rename_i s2 heq
    rw [hr] at heq
    simp at heq
  · rename_i b2 bs2 s2 heq
    rw [hr] at heq
    simp only [Prod.mk.injEq, RecvRes.bytes.injEq, List.cons.injEq] at heq
    obtain ⟨⟨rfl, rfl⟩, rfl⟩ := heq
    rfl

theorem headerLoopF_found {acc : List Char} {s : List StreamEvent}
    (h : '\n' ∈ acc) : headerLoopF acc s = .okF acc s := by
  rw [headerLoopF.eq_def]
  simp only [if_pos h]

theorem headerLoopF_step_sock {acc : List Char} {s s' : List StreamEvent}
    (h : '\n' ∉ acc) (hr : recv 4096 s = (.sockRaise, s')) :
    headerLoopF acc s = .raisedF .sockErr s' := by
  rw [headerLoopF.eq_def]
  simp only [if_neg h]
  split
  · rename_i s2 heq
    rw [hr] at heq
    obtain ⟨rfl⟩ := heq
    rfl
  · rename_i s2 heq
    rw [hr] at heq
    simp at heq
  · rename_i b bs s2 heq
    rw [hr] at heq
    simp at heq

theorem headerLoopF_step_closed {acc : List Char} {s s' : List StreamEvent}
    (h : '\n' ∉ acc) (hr : recv 4096 s = (.bytes [], s')) :
    headerLoopF acc s = .raisedF (.connErr connClosedHdrMsg) s' := by
  rw [headerLoopF.eq_def]
  simp only [if_neg h]
  split
  · rename_i s2 heq
    rw [hr] at heq
    simp at heq
  · rename_i s2 heq
    rw [hr] at heq
    obtain ⟨rfl⟩ := heq
    rfl
  · rename_i b bs s2 heq
    rw [hr] at heq
    simp at heq

theorem headerLoopF_step_data {acc : List Char} {s s' : List StreamEvent}
    {b : Char} {bs : List Char} (h : '\n' ∉ acc)
    (hr : recv 4096 s = (.bytes (b :: bs), s')) :
    headerLoopF acc s = headerLoopF (acc ++ b :: bs) s' := by
  rw [headerLoopF.eq_def]
  simp only [if_neg h]
  split
  · rename_i s2 heq
    rw [hr] at heq
    simp at heq
  · rename_i s2 heq
    rw [hr] at heq
    simp at heq
  · rename_i b2 bs2 s2 heq
    rw [hr] at heq
    simp only [Prod.mk.injEq, RecvRes.bytes.injEq, List.cons.injEq] at heq
    obtain ⟨⟨rfl, rfl⟩, rfl⟩ := heq
    rfl

/-! ### General properties of the payload loop -/

theorem payloadLoop_no_closedBreak {size : Nat} {tick : Nat → Bool}
    (s : List StreamEvent) (file : List Char) (received : Nat)
    (prog : List (Nat × Nat × Nat)) (k : Nat) :
    (payloadLoop true size tick s file received prog k).kind ≠
      .closedBreak := by
  induction s, file, received, prog, k using payloadLoop.induct true size tick
    with
  | case1 s file received prog k h s' hr hnl =>
    rw [payloadLoop_step_sock h hr]
    simp
  | case2 s file received prog k h s' hr hnl => exact absurd rfl hnl
  | case3 s file received prog k h s' hr hnl =>
    rw [payloadLoop_step_closed h hr]
    simp
  | case4 s file received prog k h s' hr hnl => exact absurd rfl hnl
  | case5 s file received prog k h b bs s' hr chunk received' prog' ih =>
    rw [payloadLoop_step_data h hr]
    exact ih
  | case6 s file received prog k h =>
    rw [payloadLoop_stop h]
    simp

theorem payloadLoop_no_sockRetry {size : Nat} {tick : Nat → Bool}
    (s : List StreamEvent) (file : List Char) (received : Nat)
    (prog : List (Nat × Nat × Nat)) (k : Nat) :
    (payloadLoop false size tick s file received prog k).kind ≠
      .sockRetry := by
  induction s, file, received, prog, k using payloadLoop.induct false size tick
    with
  | case1 s file received prog k h s' hr hnl => exact absurd hnl (by simp)
  | case2 s file received prog k h s' hr hnl =>
    rw [payloadLoop_step_sock h hr]
    simp
  | case3 s file received prog k h s' hr hnl => exact absurd hnl (by simp)
  | case4 s file received prog k h s' hr hnl =>
    rw [payloadLoop_step_closed h hr]
    simp
  | case5 s file received prog k h b bs s' hr chunk received' prog' ih =>
    rw [payloadLoop_step_data h hr]
    exact ih
  | case6 s file received prog k h =>
    rw [payloadLoop_stop h]
    simp

theorem payloadLoop_done_ge {notLast : Bool} {size : Nat} {tick : Nat → Bool}
    (s : List StreamEvent) (file : List Char) (received : Nat)
    (prog : List (Nat × Nat × Nat)) (k : Nat)
    (hk : (payloadLoop notLast size tick s file received prog k).kind =
      .done) :
    size ≤ (payloadLoop notLast size tick s file received prog k).received := by
  induction s, file, received, prog, k using
    payloadLoop.induct notLast size tick with
  | case1 s file received prog k h s' hr hnl =>
    rw [payloadLoop_step_sock h hr] at hk ⊢
    rw [if_pos hnl] at hk
    simp at hk
  | case2 s file received prog k h s' hr hnl =>
    rw [payloadLoop_step_sock h hr] at hk ⊢
    rw [if_neg hnl] at hk
    simp at hk
  | case3 s file received prog k h s' hr hnl =>
    rw [payloadLoop_step_closed h hr] at hk ⊢
    rw [if_pos hnl] at hk
    simp at hk
  | case4 s file received prog k h s' hr hnl =>
    rw [payloadLoop_step_closed h hr] at hk ⊢
    rw [if_neg hnl] at hk
    simp at hk
  | case5 s file received prog k h b bs s' hr chunk received' prog' ih =>
    rw [payloadLoop_step_data h hr] at hk ⊢
    exact ih hk
  | case6 s file received prog k h =>
    rw [payloadLoop_stop h]
    show size ≤ received
    omega

theorem payloadLoop_received_le {notLast : Bool} {size : Nat}
    {tick : Nat → Bool} (s : List StreamEvent) (file : List Char)
    (received : Nat) (prog : List (Nat × Nat × Nat)) (k : Nat)
    (hle : received ≤ size) :
    (payloadLoop notLast size tick s file received prog k).received ≤
      size := by
  induction s, file, received, prog, k using
    payloadLoop.induct notLast size tick with
  | case1 s file received prog k h s' hr hnl =>
    rw [payloadLoop_step_sock h hr]
    cases notLast <;> simp <;> omega
  | case2 s file received prog k h s' hr hnl =>
    rw [payloadLoop_step_sock h hr]
    cases notLast <;> simp <;> omega
  | case3 s file received prog k h s' hr hnl =>
    rw [payloadLoop_step_closed h hr]
    cases notLast <;> simp <;> omega
  | case4 s file received prog k h s' hr hnl =>
    rw [payloadLoop_step_closed h hr]
    cases notLast <;> simp <;> omega
  | case5 s file received prog k h b bs s' hr chunk received' prog' ih =>
    rw [payloadLoop_step_data h hr]
    have hchunk : (b :: bs).length ≤ min 4096 (size - received) :=
      recv_bytes_length hr
    have : received + (b :: bs).length ≤ size := by
      have := Nat.min_le_right 4096 (size - received)
      omega
    exact ih this
  | case6 s file received prog k h =>
    rw [payloadLoop_stop h]
    show received ≤ size
    exact hle

theorem payloadLoop_file_shape {notLast : Bool} {size : Nat}
    {tick : Nat → Bool} (s : List StreamEvent) (file : List Char)
    (received : Nat) (prog : List (Nat × Nat × Nat)) (k : Nat) :
    ∃ w, (payloadLoop notLast size tick s file received prog k).file =
        file ++ w ∧
      (payloadLoop notLast size tick s file received prog k).received =
        received + w.length := by
  induction s, file, received, prog, k using
    payloadLoop.induct notLast size tick with
  | case1 s file received prog k h s' hr hnl =>
    refine ⟨[], ?_⟩
    rw [payloadLoop_step_sock h hr]
    cases notLast <;> simp
  | case2 s file received prog k h s' hr hnl =>
    refine ⟨[], ?_⟩
    rw [payloadLoop_step_sock h hr]
    cases notLast <;> simp
  | case3 s file received prog k h s' hr hnl =>
    refine ⟨[], ?_⟩
    rw [payloadLoop_step_closed h hr]
    cases notLast <;> simp
  | case4 s file received prog k h s' hr hnl =>
    refine ⟨[], ?_⟩
    rw [payloadLoop_step_closed h hr]
    cases notLast <;> simp
  | case5 s file received prog k h b bs s' hr chunk received' prog' ih =>
    obtain ⟨w, hw1, hw2⟩ := ih
    refine ⟨b :: bs ++ w, ?_, ?_⟩
    · rw [payloadLoop_step_data h hr]
      refine hw1.trans ?_
      show file ++ (b :: bs) ++ w = file ++ (b :: (bs ++ w))
      simp
    · rw [payloadLoop_step_data h hr]
      refine hw2.trans ?_
      show received + (b :: bs).length + w.length =
        received + (b :: (bs ++ w)).length
      simp only [List.length_cons, List.length_append]
      omega
  | case6 s file received prog k h =>
    refine ⟨[], ?_⟩
    rw [payloadLoop_stop h]
    simp

/-! ### Inversion lemmas for `recv` -/

theorem recv_data_inv {n : Nat} {s s' : List StreamEvent} {b : Char}
    {bs : List Char} (h : recv n s = (.bytes (b :: bs), s')) :
    ∃ bs0 rest, s = .data bs0 :: rest ∧ bs0.take n = b :: bs ∧
      s' = (if (bs0.drop n).isEmpty then rest
        else .data (bs0.drop n) :: rest) := by
  cases s with
  | nil => simp [recv] at h
  | cons e rest =>
    cases e with
    | hup => simp [recv] at h
    | err => simp [recv] at h
    | data bs0 =>
      refine ⟨bs0, rest, rfl, ?_, ?_⟩
      · have := congrArg Prod.fst h
        simpa [recv] using this
      · have := congrArg Prod.snd h
        simpa [recv] using this.symm

theorem recv_sockRaise_inv {n : Nat} {s s' : List StreamEvent}
    (h : recv n s = (.sockRaise, s')) :
    ∃ rest, s = .err :: rest ∧ s' = rest := by
  cases s with
  | nil => simp [recv] at h
  | cons e rest =>
    cases e with
    | hup => simp [recv] at h
    | err =>
      refine ⟨rest, rfl, ?_⟩
      have := congrArg Prod.snd h
      simpa [recv] using this.symm
    | data bs0 => simp [recv] at h

/-- Total payload bytes still buffered in the stream. -/
def streamBytes (s : List StreamEvent) : Nat :=
  (s.map fun ev => match ev with | .data bs => bs.length | _ => 0).sum

theorem recv_data_bytes_sum {n : Nat} {s s' : List StreamEvent} {b : Char}
    {bs : List Char} (h : recv n s = (.bytes (b :: bs), s')) :
    streamBytes s = (b :: bs).length + streamBytes s' := by
  obtain ⟨bs0, rest, rfl, ht, hs'⟩ := recv_data_inv h
  subst hs'
  cases hd : (bs0.drop n).isEmpty with
  | true =>
    have hdd : bs0.drop n = [] := by simpa using hd
    have hlen : bs0.length ≤ n := by
      have := congrArg List.length hdd
      simp at this
      omega
    rw [← ht]
    simp [hd, streamBytes, List.length_take]
    omega
  | false =>
    rw [← ht]
    simp [hd, streamBytes, List.length_take]
    omega

/-- The well-formedness of a stream used by the header lemmas: every event is
a nonempty data chunk containing no newline byte. -/
def noNlData (s : List StreamEvent) : Prop :=
  ∀ ev ∈ s, ∃ cs, ev = .data cs ∧ cs ≠ [] ∧ '\n' ∉ cs

theorem recv_data_events {n : Nat} {s s' : List StreamEvent} {b : Char}
    {bs : List Char} (h : recv n s = (.bytes (b :: bs), s'))
    (hs : noNlData s) : '\n' ∉ (b :: bs) ∧ noNlData s' := by
  obtain ⟨bs0, rest, rfl, ht, hs'⟩ := recv_data_inv h
  obtain ⟨cs, hcs, hne, hnl⟩ := hs (.data bs0) (by simp)
  have hbs0 : bs0 = cs := by cases hcs; rfl
  subst hbs0
  constructor
  · rw [← ht]
    intro hmem
    exact hnl (List.take_subset n bs0 hmem)
  · subst hs'
    cases hd : (bs0.drop n).isEmpty with
    | true =>
      simp only [hd, if_true]
      intro ev hev
      exact hs ev (by simp [hev])
    | false =>
      rw [if_neg (by simp [hd])]
      intro ev hev
      rcases List.mem_cons.mp hev with rfl | hev2
      · refine ⟨bs0.drop n, rfl, by simpa using hd, ?_⟩
        intro hmem
        exact hnl (List.drop_subset n bs0 hmem)
      · exact hs ev (by simp [hev2])

theorem recv_nil_noNlData {n : Nat} {s s' : List StreamEvent}
    (h : recv n s = (.bytes [], s')) (hn : 1 ≤ n) (hs : noNlData s) :
    s = [] ∧ s' = [] := by
  cases s with
  | nil =>
    have := congrArg Prod.snd h
    simp [recv] at this
    exact ⟨rfl, this⟩
  | cons e rest =>
    cases e with
    | hup =>
      obtain ⟨cs, hcs, _, _⟩ := hs .hup (by simp)
      cases hcs
    | err => simp [recv] at h
    | data bs0 =>
      obtain ⟨cs, hcs, hne, _⟩ := hs (.data bs0) (by simp)
      have hbs0 : bs0 = cs := by cases hcs; rfl
      subst hbs0
      have := congrArg Prod.fst h
      simp [recv] at this
      rcases this with h1 | h1
      · omega
      · exact absurd h1 hne

theorem recv_no_sockRaise_noNlData {n : Nat} {s s' : List StreamEvent}
    (h : recv n s = (.sockRaise, s')) (hs : noNlData s) : False := by
  obtain ⟨rest, rfl, _⟩ := recv_sockRaise_inv h
  obtain ⟨cs, hcs, _, _⟩ := hs .err (by simp)
  cases hcs

/-! ### General properties of the header loops -/

theorem headerLoopC_no_sockBreak (acc : List Char) (s : List StreamEvent) :
    ∀ hd s2, headerLoopC true acc s ≠ .sockBreak hd s2 := by
  induction acc, s using headerLoopC.induct true with
  | case1 acc s hin =>
    intro hd s2
    rw [headerLoopC_found hin]
    simp
  | case2 acc s hin s' hr hnl =>
    intro hd s2
    rw [headerLoopC_step_sock hin hr]
    simp
  | case3 acc s hin s' hr hnl => exact absurd rfl hnl
  | case4 acc s hin s' hr =>
    intro hd s2
    rw [headerLoopC_step_closed hin hr]
    simp
  | case5 acc s hin b bs s' hr acc' hcap =>
    intro hd s2
    rw [headerLoopC_step_data hin hr, if_pos hcap]
    simp
  | case6 acc s hin b bs s' hr acc' hcap ih =>
    intro hd s2
    rw [headerLoopC_step_data hin hr, if_neg hcap]
    exact ih hd s2

theorem headerLoopC_oversized (notLast : Bool) (acc : List Char)
    (s : List StreamEvent) :
    '\n' ∉ acc → acc.length ≤ 1024000 → noNlData s →
      1024000 < acc.length + streamBytes s →
      ∃ s2, headerLoopC notLast acc s =
        .raisedH (.valueErr oversizedMsg) s2 := by
  induction acc, s using headerLoopC.induct notLast with
  | case1 acc s hin =>
    intro hnl _ _ _
    exact absurd hin hnl
  | case2 acc s hin s' hr hnl =>
    intro _ _ hs _
    exact absurd (recv_no_sockRaise_noNlData hr hs) (by simp)
  | case3 acc s hin s' hr hnl =>
    intro _ _ hs _
    exact absurd (recv_no_sockRaise_noNlData hr hs) (by simp)
  | case4 acc s hin s' hr =>
    intro _ hle hs htot
    obtain ⟨rfl, _⟩ := recv_nil_noNlData hr (by norm_num) hs
    simp [streamBytes] at htot
    omega
  | case5 acc s hin b bs s' hr acc' hcap =>
    intro _ _ _ _
    refine ⟨s', ?_⟩
    rw [headerLoopC_step_data hin hr, if_pos hcap]
  | case6 acc s hin b bs s' hr acc' hcap ih =>
    intro hnl hle hs htot
    obtain ⟨hnl2, hs'⟩ := recv_data_events hr hs
    have hsum := recv_data_bytes_sum hr
    have hnl3 : '\n' ∉ acc' := by
      intro hmem
      rcases List.mem_append.mp hmem with hm | hm
      · exact hnl hm
      · exact hnl2 hm
    have hle2 : acc'.length ≤ 1024000 := by
      have : acc'.length = acc.length + (b :: bs).length := by
        simp [acc']
      omega
    have htot2 : 1024000 < acc'.length + streamBytes s' := by
      have : acc'.length = acc.length + (b :: bs).length := by
        simp [acc']
      omega
    obtain ⟨s2, hs2⟩ := ih hnl3 hle2 hs' htot2
    refine ⟨s2, ?_⟩
    rw [headerLoopC_step_data hin hr, if_neg hcap]
    exact hs2

theorem headerLoopF_noNl (acc : List Char) (s : List StreamEvent) :
    '\n' ∉ acc → noNlData s →
      headerLoopF acc s = .raisedF (.connErr connClosedHdrMsg) [] := by
  induction acc, s using headerLoopF.induct with
  | case1 acc s hin =>
    intro hnl _
    exact absurd hin hnl
  | case2 acc s hin s' hr =>
    intro _ hs
    exact absurd (recv_no_sockRaise_noNlData hr hs) (by simp)
  | case3 acc s hin s' hr =>
    intro _ hs
    obtain ⟨rfl, rfl⟩ := recv_nil_noNlData hr (by norm_num) hs
    exact headerLoopF_step_closed hin hr
  | case4 acc s hin b bs s' hr ih =>
    intro hnl hs
    obtain ⟨hnl2, hs'⟩ := recv_data_events hr hs
    have hnl3 : '\n' ∉ acc ++ b :: bs := by
      intro hmem
      rcases List.mem_append.mp hmem with hm | hm
      · exact hnl hm
      · exact hnl2 hm
    rw [headerLoopF_step_data hin hr]
    exact ih hnl3 hs'

/-! ### Single-chunk header lemmas (header arrives in one buffered run) -/

theorem recv_single_chunk {bs : List Char} {rest : List StreamEvent}
    (hne : bs ≠ []) (hlen : bs.length ≤ 4096) :
    recv 4096 (.data bs :: rest) = (.bytes bs, rest) := by
  simp [recv, List.take_of_length_le hlen, List.drop_eq_nil_of_le hlen]

theorem headerLoopC_single {notLast : Bool} {bs : List Char}
    {rest : List StreamEvent} (hne : bs ≠ []) (hlen : bs.length ≤ 4096)
    (hnl : '\n' ∈ bs) :
    headerLoopC notLast [] (.data bs :: rest) = .ok bs rest := by
  cases bs with
  | nil => exact absurd rfl hne
  | cons b bt =>
    rw [headerLoopC_step_data (by simp) (recv_single_chunk hne hlen)]
    have hcap : ¬ (([] : List Char) ++ b :: bt).length > 1024000 := by
      rw [List.nil_append]
      omega
    rw [if_neg hcap]
    rw [List.nil_append]
    exact headerLoopC_found hnl

theorem headerLoopF_single {bs : List Char} {rest : List StreamEvent}
    (hne : bs ≠ []) (hlen : bs.length ≤ 4096) (hnl : '\n' ∈ bs) :
    headerLoopF [] (.data bs :: rest) = .okF bs rest := by
  cases bs with
  | nil => exact absurd rfl hne
  | cons b bt =>
    rw [headerLoopF_step_data (by simp) (recv_single_chunk hne hlen)]
    rw [List.nil_append]
    exact headerLoopF_found hnl

/-! ### Characterisation of one attempt of the tk client's retry loop -/

/-- Facts about one payload-phase trace used by several claims. -/
def traceFacts (t : AttemptTrace) : Prop :=
  t.receivedInit = t.leftover.length ∧
  t.written.take t.leftover.length = t.leftover ∧
  (t.receivedInit ≤ t.fileSize → t.receivedFinal ≤ t.fileSize)

/-- The shape of an attempt-0 step: it either returns `True` having appended
exactly one Complete record, or raises with no record, or falls through with
`last_exception` set and no record; traces are first-attempt `'wb'` traces. -/
def stepSpec (o : StepOut) : Prop :=
  ((∃ name size, o.res = .retTrue ∧
      o.records = [completeRec o.savePath name size]) ∨
    (∃ e, o.res = .raisedS e ∧ o.records = []) ∨
    (∃ e, o.res = .fell (some e) ∧ o.records = [])) ∧
  (∀ t ∈ o.traces, t.attempt = 0 ∧ t.mode = .wb ∧ traceFacts t) ∧
  (o.res = .retTrue → ∀ t ∈ o.traces, t.fileSize ≤ t.receivedFinal)

theorem wb_fileStart (remaining : List Char) :
    (if FileMode.wb = FileMode.wb ∧ remaining ≠ [] then
      ([] : List Char) ++ remaining else []) = remaining := by
  by_cases h : remaining = []
  · subst h; simp
  · simp [h]


theorem ite_nil_id (l : List Char) :
    (if l = [] then ([] : List Char) else l) = l := by
  by_cases h : l = [] <;> simp [h]

/-- The attempt trace built by a first attempt (mode `'wb'`). -/
def mkTrace0 (size : Nat) (remaining : List Char) (pp : PayOut) :
    AttemptTrace :=
  { attempt := 0, mode := .wb, fileSize := size, leftover := remaining,
    receivedInit := remaining.length, receivedFinal := pp.received,
    recvCalls := pp.recvCalls, written := pp.file }

theorem attemptBody0_spec (p : List Char) (f0 : Option (List Char))
    (hd : List Char) (s1 : List StreamEvent) (tk : Nat → Bool) :
    stepSpec (attemptBody 0 false p f0 hd s1 tk) := by
  cases hp : parseHeaderC (splitHeaderData hd).1 with
  | error e =>
    have he : attemptBody 0 false p f0 hd s1 tk =
        { res := .raisedS e, records := [], savePath := p, file := f0,
          s := s1, prog := [], traces := [] } := by
      simp only [attemptBody, hp]
    rw [he]
    refine ⟨Or.inr (Or.inl ⟨e, rfl, rfl⟩), ?_, ?_⟩
    · intro t ht
      simp at ht
    · intro _ t ht
      simp at ht
  | ok nse =>
    obtain ⟨name, size, ext⟩ := nse
    have he : attemptBody 0 false p f0 hd s1 tk =
        (let savePath' := if splitextExt p = [] then p ++ ext else p
        let remaining := (splitHeaderData hd).2
        let pp := payloadLoop true size tk s1 remaining remaining.length [] 0
        let tr := mkTrace0 size remaining pp
        match pp.kind with
        | .raisedK e =>
          { res := .raisedS e, records := [], savePath := savePath',
            file := some pp.file, s := pp.s, prog := pp.prog, traces := [tr] }
        | _ =>
          if size ≤ pp.received then
            { res := .retTrue, records := [completeRec savePath' name size],
              savePath := savePath', file := some pp.file, s := pp.s,
              prog := pp.prog ++ [(100, pp.received, size)], traces := [tr] }
          else
            { res := .fell (if pp.kind = .sockRetry ∨ false = true then
                some .sockErr else none),
              records := [], savePath := savePath', file := some pp.file,
              s := pp.s, prog := pp.prog, traces := [tr] } : StepOut) := by
      simp [attemptBody, hp, ite_nil_id, mkTrace0]
    rw [he]
    simp only []
    set remaining := (splitHeaderData hd).2 with hrem
    set pp := payloadLoop true size tk s1 remaining remaining.length [] 0
      with hpp
    have htr : traceFacts (mkTrace0 size remaining pp) := by
      refine ⟨rfl, ?_, ?_⟩
      · obtain ⟨w, hw1, _⟩ :=
          @payloadLoop_file_shape true size tk s1 remaining remaining.length
            [] 0
        rw [← hpp] at hw1
        show pp.file.take remaining.length = remaining
        rw [hw1]
        simpa using List.take_left remaining w
      · intro hle
        have hrr :=
          @payloadLoop_received_le true size tk s1 remaining remaining.length
            [] 0 hle
        rw [← hpp] at hrr
        exact hrr
    cases hk : pp.kind with
    | raisedK e =>
      refine ⟨Or.inr (Or.inl ⟨e, rfl, rfl⟩), ?_, ?_⟩
      · intro t ht
        simp at ht
        subst ht
        exact ⟨rfl, rfl, htr⟩
      · intro hres
        simp at hres
    | done =>
      have hge : size ≤ pp.received := by
        apply payloadLoop_done_ge
        rw [← hpp]
        exact hk
      rw [if_pos hge]
      refine ⟨Or.inl ⟨name, size, rfl, rfl⟩, ?_, ?_⟩
      · intro t ht
        simp at ht
        subst ht
        exact ⟨rfl, rfl, htr⟩
      · intro _ t ht
        simp at ht
        subst ht
        exact hge
    | closedBreak =>
      exact absurd hk (payloadLoop_no_closedBreak s1 remaining
        remaining.length [] 0)
    | sockRetry =>
      by_cases hge : size ≤ pp.received
      · rw [if_pos hge]
        refine ⟨Or.inl ⟨name, size, rfl, rfl⟩, ?_, ?_⟩
        · intro t ht
          simp at ht
          subst ht
          exact ⟨rfl, rfl, htr⟩
        · intro _ t ht
          simp at ht
          subst ht
          exact hge
      · rw [if_neg hge]
        refine ⟨Or.inr (Or.inr ⟨.sockErr, ?_, rfl⟩), ?_, ?_⟩
        · simp
        · intro t ht
          simp at ht
          subst ht
          exact ⟨rfl, rfl, htr⟩
        · intro hres
          simp at hres

theorem attemptStep0_spec (p : List Char) (f0 : Option (List Char))
    (s : List StreamEvent) (tk : Nat → Bool) :
    stepSpec (attemptStep 0 p f0 s tk) := by
  cases hh : headerLoopC true [] s with
  | raisedH e s1 =>
    have he : attemptStep 0 p f0 s tk =
        { res := .raisedS e, records := [], savePath := p, file := f0,
          s := s1, prog := [], traces := [] } := by
      simp only [attemptStep]
      rw [show decide (0 < 2) = true from rfl, hh]
    rw [he]
    refine ⟨Or.inr (Or.inl ⟨e, rfl, rfl⟩), ?_, ?_⟩
    · intro t ht
      simp at ht
    · intro _ t ht
      simp at ht
  | ok hd s1 =>
    have he : attemptStep 0 p f0 s tk = attemptBody 0 false p f0 hd s1 tk := by
      simp only [attemptStep]
      rw [show decide (0 < 2) = true from rfl, hh]
    rw [he]
    exact attemptBody0_spec p f0 hd s1 tk
  | sockBreak hd s1 =>
    exact absurd hh (headerLoopC_no_sockBreak [] s hd s1)

/-! ### Unfolding the retry driver when the client is (still) connected -/

theorem connectFC_connected {st : ClientState} (h : st.connected = true)
    (dialOk : Bool) (newSock : Nat) :
    connectFC st dialOk newSock = (false, st, false) := by
  rw [connectFC, if_pos h]

theorem attemptsLoopC_skip (a : Nat) (rest : List Nat) (ha : 0 < a)
    {st : ClientState} (h : st.connected = true) (savePath : List Char)
    (file : Option (List Char)) (s : List StreamEvent) (tick : Nat → Bool)
    (dial : Nat → Bool) (lastExc : Option PyErr) (recs : List LedgerRec)
    (prog : List (Nat × Nat × Nat)) (traces : List AttemptTrace) :
    attemptsLoopC (a :: rest) st savePath file s tick dial lastExc recs prog
        traces =
      attemptsLoopC rest st savePath file s tick dial lastExc recs prog
        traces := by
  simp only [attemptsLoopC]
  rw [if_pos ha, connectFC_connected h]
  simp

theorem attemptsLoopC_zero (rest : List Nat) (st : ClientState)
    (savePath : List Char) (file : Option (List Char)) (s : List StreamEvent)
    (tick : Nat → Bool) (dial : Nat → Bool) (lastExc : Option PyErr)
    (recs : List LedgerRec) (prog : List (Nat × Nat × Nat))
    (traces : List AttemptTrace) :
    attemptsLoopC (0 :: rest) st savePath file s tick dial lastExc recs prog
        traces =
      (let o := attemptStep 0 savePath file s tick
      match o.res with
      | .retTrue =>
        { outcome := .ret (.bool true), records := recs ++ o.records,
          file := o.file, prog := prog ++ o.prog,
          traces := traces ++ o.traces }
      | .raisedS e =>
        attemptsLoopC rest st o.savePath o.file o.s tick dial (some e)
          (recs ++ o.records) (prog ++ o.prog) (traces ++ o.traces)
      | .fell upd =>
        attemptsLoopC rest st o.savePath o.file o.s tick dial
          (match upd with | some e => some e | none => lastExc)
          (recs ++ o.records) (prog ++ o.prog)
          (traces ++ o.traces) : RunOut) := by
  simp only [attemptsLoopC]
  norm_num

theorem attemptsLoopC_nil (st : ClientState) (savePath : List Char)
    (file : Option (List Char)) (s : List StreamEvent) (tick : Nat → Bool)
    (dial : Nat → Bool) (lastExc : Option PyErr) (recs : List LedgerRec)
    (prog : List (Nat × Nat × Nat)) (traces : List AttemptTrace) :
    attemptsLoopC [] st savePath file s tick dial lastExc recs prog traces =
      (match lastExc with
      | some e =>
        { outcome := .raised e, records := recs ++ [failedRec savePath e],
          file := file, prog := prog, traces := traces }
      | none =>
        { outcome := .ret (.bool false), records := recs, file := file,
          prog := prog, traces := traces } : RunOut) := rfl

/-- With the client connected (as it stays throughout a call — nothing in
`receive_file` clears `self.connected`), the reconnect guard of attempts 1
and 2 always takes the `continue` branch, so the whole call is determined by
attempt 0 and the post-loop epilogue. -/
theorem receiveC_shape (st : ClientState) (p : List Char)
    (f0 : Option (List Char)) (s : List StreamEvent) (tk : Nat → Bool)
    (dial : Nat → Bool) (h : st.connected = true) :
    receiveC st p f0 s tk dial =
      (let o := attemptStep 0 p f0 s tk
      match o.res with
      | .retTrue =>
        { outcome := .ret (.bool true), records := o.records, file := o.file,
          prog := o.prog, traces := o.traces }
      | .raisedS e =>
        { outcome := .raised e,
          records := o.records ++ [failedRec o.savePath e], file := o.file,
          prog := o.prog, traces := o.traces }
      | .fell upd =>
        match upd with
        | some e =>
          { outcome := .raised e,
            records := o.records ++ [failedRec o.savePath e],
            file := o.file, prog := o.prog, traces := o.traces }
        | none =>
          { outcome := .ret (.bool false), records := o.records,
            file := o.file, prog := o.prog, traces := o.traces } : RunOut) := by
  rw [receiveC, if_pos h, attemptsLoopC_zero]
  simp only []
  cases hres : (attemptStep 0 p f0 s tk).res with
  | retTrue => simp
  | raisedS e =>
    simp only [attemptsLoopC_skip 1 [2] (by norm_num) h,
      attemptsLoopC_skip 2 [] (by norm_num) h, attemptsLoopC_nil]
    simp
  | fell upd =>
    cases upd with
    | some e =>
      simp only [attemptsLoopC_skip 1 [2] (by norm_num) h,
        attemptsLoopC_skip 2 [] (by norm_num) h, attemptsLoopC_nil]
      simp
    | none =>
      simp only [attemptsLoopC_skip 1 [2] (by norm_num) h,
        attemptsLoopC_skip 2 [] (by norm_num) h, attemptsLoopC_nil]
      simp

/-! ### Status strings are pairwise distinguishable -/

theorem incompleteStatus_ne_complete (r n : Nat) :
    incompleteStatus r n ≠ completeStr := by
  simp [incompleteStatus, completeStr]

theorem failedStatus_ne_complete (e : PyErr) :
    failedStatus e ≠ completeStr := by
  simp [failedStatus, completeStr]

/-! ### Characterisation of the flet client's `receive_file` -/

theorem receiveF_spec (st : ClientState) (p : List Char)
    (f0 : Option (List Char)) (s : List StreamEvent) (tk : Nat → Bool)
    (h : st.connected = true) :
    (receiveF st p f0 s tk).records.length = 1 ∧
    (∀ e, (receiveF st p f0 s tk).outcome = .raised e →
      (receiveF st p f0 s tk).records = [failedRec p e]) ∧
    (∀ t ∈ (receiveF st p f0 s tk).traces,
      t.attempt = 0 ∧ t.mode = .wb ∧ traceFacts t) ∧
    (∀ rec ∈ (receiveF st p f0 s tk).records, rec.status = completeStr →
      ∀ t ∈ (receiveF st p f0 s tk).traces,
        t.fileSize ≤ t.receivedFinal) := by
  rw [receiveF, if_pos h]
  cases hh : headerLoopF [] s with
  | raisedF e s1 =>
    simp only [fletFailOut]
    refine ⟨rfl, ?_, ?_, ?_⟩
    · intro e2 he2
      simp only [Outcome.raised.injEq] at he2
      rw [he2]
    · intro t ht
      simp at ht
    · intro rec hrec hst t ht
      simp at ht
  | okF hd s1 =>
    cases hp : parseHeaderF (splitHeaderData hd).1 with
    | error e =>
      simp only [hp, fletFailOut]
      refine ⟨rfl, ?_, ?_, ?_⟩
      · intro e2 he2
        simp only [Outcome.raised.injEq] at he2
        rw [he2]
      · intro t ht
        simp at ht
      · intro rec hrec hst t ht
        simp at ht
    | ok ns =>
      obtain ⟨name, size⟩ := ns
      simp only [hp]
      set remaining := (splitHeaderData hd).2 with hrem
      set pp := payloadLoop false size tk s1 remaining remaining.length [] 0
        with hpp
      have htr : traceFacts (mkTrace0 size remaining pp) := by
        refine ⟨rfl, ?_, ?_⟩
        · obtain ⟨w, hw1, _⟩ :=
            @payloadLoop_file_shape false size tk s1 remaining
              remaining.length [] 0
          rw [← hpp] at hw1
          show pp.file.take remaining.length = remaining
          rw [hw1]
          simpa using List.take_left remaining w
        · intro hle
          have hrr :=
            @payloadLoop_received_le false size tk s1 remaining
              remaining.length [] 0 hle
          rw [← hpp] at hrr
          exact hrr
      cases hk : pp.kind with
      | raisedK e =>
        simp only [fletFailOut]
        refine ⟨rfl, ?_, ?_, ?_⟩
        · intro e2 he2
          simp only [Outcome.raised.injEq] at he2
          rw [he2]
        · intro t ht
          simp at ht
          subst ht
          exact ⟨rfl, rfl, htr⟩
        · intro rec hrec hst t ht
          simp at hrec
          rw [hrec] at hst
          exact absurd hst (failedStatus_ne_complete e)
      | done =>
        refine ⟨rfl, ?_, ?_, ?_⟩
        · intro e2 he2
          simp at he2
        · intro t ht
          simp at ht
          subst ht
          exact ⟨rfl, rfl, htr⟩
        · intro rec hrec hst t ht
          simp at ht
          subst ht
          simp only [fletFinalRec] at hrec
          simp at hrec
          rw [hrec] at hst
          by_cases hge : size ≤ pp.received
          · exact hge
          · rw [if_neg (by omega)] at hst
            exact absurd hst (incompleteStatus_ne_complete pp.received size)
      | closedBreak =>
        refine ⟨rfl, ?_, ?_, ?_⟩
        · intro e2 he2
          simp at he2
        · intro t ht
          simp at ht
          subst ht
          exact ⟨rfl, rfl, htr⟩
        · intro rec hrec hst t ht
          simp at ht
          subst ht
          simp only [fletFinalRec] at hrec
          simp at hrec
          rw [hrec] at hst
          by_cases hge : size ≤ pp.received
          · exact hge
          · rw [if_neg (by omega)] at hst
            exact absurd hst (incompleteStatus_ne_complete pp.received size)
      | sockRetry =>
        exact absurd hk (payloadLoop_no_sockRetry s1 remaining
          remaining.length [] 0)

/-- Computation rule for a first attempt whose header parsed. -/
theorem attemptBody0_eq {name : List Char} {size : Nat} {ext : List Char}
    (p : List Char) (f0 : Option (List Char)) (hd : List Char)
    (s1 : List StreamEvent) (tk : Nat → Bool)
    (hp : parseHeaderC (splitHeaderData hd).1 = .ok (name, size, ext)) :
    attemptBody 0 false p f0 hd s1 tk =
      (let savePath' := if splitextExt p = [] then p ++ ext else p
      let remaining := (splitHeaderData hd).2
      let pp := payloadLoop true size tk s1 remaining remaining.length [] 0
      let tr := mkTrace0 size remaining pp
      match pp.kind with
      | .raisedK e =>
        { res := .raisedS e, records := [], savePath := savePath',
          file := some pp.file, s := pp.s, prog := pp.prog, traces := [tr] }
      | _ =>
        if size ≤ pp.received then
          { res := .retTrue, records := [completeRec savePath' name size],
            savePath := savePath', file := some pp.file, s := pp.s,
            prog := pp.prog ++ [(100, pp.received, size)], traces := [tr] }
        else
          { res := .fell (if pp.kind = .sockRetry ∨ false = true then
              some .sockErr else none),
            records := [], savePath := savePath', file := some pp.file,
            s := pp.s, prog := pp.prog, traces := [tr] } : StepOut) := by
  simp [attemptBody, hp, ite_nil_id, mkTrace0]

/-- Computation rule for `attemptStep` at attempt 0 once the header loop
returned normally. -/
theorem attemptStep0_eq_body (p : List Char) (f0 : Option (List Char))
    {s s1 : List StreamEvent} {hd : List Char} (tk : Nat → Bool)
    (hh : headerLoopC true [] s = .ok hd s1) :
    attemptStep 0 p f0 s tk = attemptBody 0 false p f0 hd s1 tk := by
  simp only [attemptStep]
  rw [show decide (0 < 2) = true from rfl, hh]

/-! ### C9 -/

/-- C9: calling `connect(host, port)` while the client is already connected
returns `False` and leaves all client state unchanged — the socket object
and the `connected` flag are untouched and no new connection is dialed. -/
theorem c9_connect_already_connected (st : ClientState) (dialOk : Bool)
    (newSock : Nat) (h : st.connected = true) :
    connectFC st dialOk newSock = (false, st, false) := by
  rw [connectFC, if_pos h]

theorem c9_connect_already_connected_witness :
    ({ sock := some 7, connected := true } : ClientState).connected = true ∧
    connectFC { sock := some 7, connected := true } true 9 =
      (false, { sock := some 7, connected := true }, false) :=
  ⟨rfl, c9_connect_already_connected _ true 9 rfl⟩

/-! ### C2 -/

/-- C2: for every top-level `receive_file` call on a connected client,
exactly one history record is appended (never one per retry attempt), and a
terminally failing call both re-raises the last error and appends a record
whose status embeds that error's text. Holds for both the tk client
(`receiveC`) and the flet client (`receiveF`). -/
theorem c2_terminal_failure_record_and_reraise (st : ClientState)
    (p : List Char) (f0 : Option (List Char)) (s : List StreamEvent)
    (tk dial : Nat → Bool) (h : st.connected = true) :
    ((receiveC st p f0 s tk dial).records.length = 1 ∧
      ∀ e, (receiveC st p f0 s tk dial).outcome = .raised e →
        (receiveC st p f0 s tk dial).records.map (fun r => r.status) =
          ["Failed: ".data ++ errText e]) ∧
    ((receiveF st p f0 s tk).records.length = 1 ∧
      ∀ e, (receiveF st p f0 s tk).outcome = .raised e →
        (receiveF st p f0 s tk).records.map (fun r => r.status) =
          ["Failed: ".data ++ errText e]) := by
  constructor
  · rw [receiveC_shape st p f0 s tk dial h]
    obtain ⟨hshape, -, -⟩ := attemptStep0_spec p f0 s tk
    rcases hshape with ⟨name, size, hres, hrecs⟩ | ⟨e, hres, hrecs⟩ |
      ⟨e, hres, hrecs⟩
    · simp only [hres, hrecs]
      refine ⟨rfl, ?_⟩
      intro e2 he2
      simp at he2
    · simp only [hres, hrecs]
      refine ⟨rfl, ?_⟩
      intro e2 he2
      simp only [Outcome.raised.injEq] at he2
      subst he2
      simp [failedRec, failedStatus]
    · simp only [hres, hrecs]
      refine ⟨rfl, ?_⟩
      intro e2 he2
      simp only [Outcome.raised.injEq] at he2
      subst he2
      simp [failedRec, failedStatus]
  · obtain ⟨hlen, hfail, -, -⟩ := receiveF_spec st p f0 s tk h
    refine ⟨hlen, ?_⟩
    intro e he
    rw [hfail e he]
    simp [failedRec, failedStatus]

theorem c2_terminal_failure_record_and_reraise_witness :
    (({ sock := some 0, connected := true } : ClientState).connected =
      true) ∧
    (((receiveC { sock := some 0, connected := true } "out.bin".data none []
        (fun _ => false) (fun _ => false)).records.length = 1 ∧
      ∀ e, (receiveC { sock := some 0, connected := true } "out.bin".data
          none [] (fun _ => false) (fun _ => false)).outcome = .raised e →
        (receiveC { sock := some 0, connected := true } "out.bin".data none
          [] (fun _ => false) (fun _ => false)).records.map
            (fun r => r.status) = ["Failed: ".data ++ errText e]) ∧
    ((receiveF { sock := some 0, connected := true } "out.bin".data none []
        (fun _ => false)).records.length = 1 ∧
      ∀ e, (receiveF { sock := some 0, connected := true } "out.bin".data
          none [] (fun _ => false)).outcome = .raised e →
        (receiveF { sock := some 0, connected := true } "out.bin".data none
          [] (fun _ => false)).records.map (fun r => r.status) =
            ["Failed: ".data ++ errText e])) :=
  ⟨rfl, c2_terminal_failure_record_and_reraise _ _ none [] _ _ rfl⟩

/-! ### C10 -/

/-- C10: the receive loop maintains `received_bytes <= file_size` whenever
the leftover header bytes do not exceed the declared size — each read
requests `min(4096, file_size - received_bytes)` bytes so `received_bytes`
can never overshoot — the loop performs no read once
`received_bytes >= file_size`, and a Complete outcome therefore implies
`received_bytes == file_size` exactly (tk client: a `True` return;
flet client: a record with status `Complete`). -/
theorem c10_received_le_size_invariant (st : ClientState) (p : List Char)
    (f0 : Option (List Char)) (s : List StreamEvent) (tk dial : Nat → Bool)
    (h : st.connected = true) :
    (∀ (notLast : Bool) (size : Nat) (file : List Char) (received : Nat)
      (prog : List (Nat × Nat × Nat)) (k : Nat), received ≤ size →
      (payloadLoop notLast size tk s file received prog k).received ≤
        size) ∧
    (∀ (notLast : Bool) (size : Nat) (file : List Char) (received : Nat)
      (prog : List (Nat × Nat × Nat)) (k : Nat), size ≤ received →
      (payloadLoop notLast size tk s file received prog k).recvCalls = k ∧
      (payloadLoop notLast size tk s file received prog k).received =
        received) ∧
    ((receiveC st p f0 s tk dial).outcome = .ret (.bool true) →
      ∀ t ∈ (receiveC st p f0 s tk dial).traces,
        t.receivedInit ≤ t.fileSize → t.receivedFinal = t.fileSize) ∧
    (∀ rec ∈ (receiveF st p f0 s tk).records, rec.status = completeStr →
      ∀ t ∈ (receiveF st p f0 s tk).traces,
        t.receivedInit ≤ t.fileSize → t.receivedFinal = t.fileSize) := by
  refine ⟨?_, ?_, ?_, ?_⟩
  · intro notLast size file received prog k hle
    exact payloadLoop_received_le s file received prog k hle
  · intro notLast size file received prog k hge
    rw [payloadLoop_stop (by omega)]
    exact ⟨rfl, rfl⟩
  · rw [receiveC_shape st p f0 s tk dial h]
    obtain ⟨hshape, htr, hret⟩ := attemptStep0_spec p f0 s tk
    rcases hshape with ⟨name, size, hres, hrecs⟩ | ⟨e, hres, hrecs⟩ |
      ⟨e, hres, hrecs⟩
    · simp only [hres]
      intro _ t ht hle
      have h1 := (htr t ht).2.2.2.2 hle
      have h2 := hret hres t ht
      omega
    · simp only [hres]
      intro hcon
      simp at hcon
    · simp only [hres]
      intro hcon
      simp at hcon
  · obtain ⟨-, -, htr, hcomp⟩ := receiveF_spec st p f0 s tk h
    intro rec hrec hst t ht hle
    have h1 := (htr t ht).2.2.2.2 hle
    have h2 := hcomp rec hrec hst t ht
    omega

theorem c10_received_le_size_invariant_witness :
    (({ sock := some 0, connected := true } : ClientState).connected =
      true) ∧
    ((∀ (notLast : Bool) (size : Nat) (file : List Char) (received : Nat)
      (prog : List (Nat × Nat × Nat)) (k : Nat), received ≤ size →
      (payloadLoop notLast size (fun _ => false) [] file received prog
        k).received ≤ size) ∧
    (∀ (notLast : Bool) (size : Nat) (file : List Char) (received : Nat)
      (prog : List (Nat × Nat × Nat)) (k : Nat), size ≤ received →
      (payloadLoop notLast size (fun _ => false) [] file received prog
        k).recvCalls = k ∧
      (payloadLoop notLast size (fun _ => false) [] file received prog
        k).received = received) ∧
    ((receiveC { sock := some 0, connected := true } "out.bin".data none []
        (fun _ => false) (fun _ => false)).outcome = .ret (.bool true) →
      ∀ t ∈ (receiveC { sock := some 0, connected := true } "out.bin".data
          none [] (fun _ => false) (fun _ => false)).traces,
        t.receivedInit ≤ t.fileSize → t.receivedFinal = t.fileSize) ∧
    (∀ rec ∈ (receiveF { sock := some 0, connected := true } "out.bin".data
        none [] (fun _ => false)).records, rec.status = completeStr →
      ∀ t ∈ (receiveF { sock := some 0, connected := true } "out.bin".data
          none [] (fun _ => false)).traces,
        t.receivedInit ≤ t.fileSize → t.receivedFinal = t.fileSize)) :=
  ⟨rfl, c10_received_le_size_invariant _ _ none [] _ _ rfl⟩

/-! ### C5 -/

/-- C5: on every attempt of `receive_file` that reaches the payload phase,
the leftover bytes decoded with the header are counted into
`received_bytes` and written as the first bytes of the destination file. In
the tk client's runs every such attempt is a first attempt in `'wb'` mode
(the reconnect guard prevents any retry attempt from reaching the payload
phase, so the `'ab'`-mode leftover-skipping branch never executes); the flet
client always writes the leftover. -/
theorem c5_leftover_written_and_counted (st : ClientState) (p : List Char)
    (f0 : Option (List Char)) (s : List StreamEvent) (tk dial : Nat → Bool)
    (h : st.connected = true) :
    (∀ t ∈ (receiveC st p f0 s tk dial).traces,
      t.mode = .wb ∧ t.receivedInit = t.leftover.length ∧
      t.written.take t.leftover.length = t.leftover) ∧
    (∀ t ∈ (receiveF st p f0 s tk).traces,
      t.mode = .wb ∧ t.receivedInit = t.leftover.length ∧
      t.written.take t.leftover.length = t.leftover) := by
  constructor
  · rw [receiveC_shape st p f0 s tk dial h]
    obtain ⟨hshape, htr, -⟩ := attemptStep0_spec p f0 s tk
    rcases hshape with ⟨name, size, hres, hrecs⟩ | ⟨e, hres, hrecs⟩ |
      ⟨e, hres, hrecs⟩ <;>
      simp only [hres] <;>
      (intro t ht
       obtain ⟨-, hmode, hfact⟩ := htr t ht
       exact ⟨hmode, hfact.1, hfact.2.1⟩)
  · obtain ⟨-, -, htr, -⟩ := receiveF_spec st p f0 s tk h
    intro t ht
    obtain ⟨-, hmode, hfact⟩ := htr t ht
    exact ⟨hmode, hfact.1, hfact.2.1⟩

theorem c5_leftover_written_and_counted_witness :
    (({ sock := some 0, connected := true } : ClientState).connected =
      true) ∧
    ((∀ t ∈ (receiveC { sock := some 0, connected := true } "out.bin".data
        none [.data "f|3|.x\nab".data] (fun _ => false)
        (fun _ => false)).traces,
      t.mode = .wb ∧ t.receivedInit = t.leftover.length ∧
      t.written.take t.leftover.length = t.leftover) ∧
    (∀ t ∈ (receiveF { sock := some 0, connected := true } "out.bin".data
        none [.data "f|3\nab".data] (fun _ => false)).traces,
      t.mode = .wb ∧ t.receivedInit = t.leftover.length ∧
      t.written.take t.leftover.length = t.leftover)) :=
  ⟨rfl, by
    have h1 := c5_leftover_written_and_counted
      { sock := some 0, connected := true } "out.bin".data none
      [.data "f|3|.x\nab".data] (fun _ => false) (fun _ => false) rfl
    have h2 := c5_leftover_written_and_counted
      { sock := some 0, connected := true } "out.bin".data none
      [.data "f|3\nab".data] (fun _ => false) (fun _ => false) rfl
    exact ⟨h1.1, h2.2⟩⟩

/-! ### C3 -/

theorem nl_not_mem_line2 {name : List Char} {N : Nat} (hn : '\n' ∉ name) :
    '\n' ∉ name ++ '|' :: natToDecimal N := by
  intro hm
  rcases List.mem_append.mp hm with hm | hm
  · exact hn hm
  · rcases List.mem_cons.mp hm with hm | hm
    · simp at hm
    · exact nl_not_mem_natToDecimal N hm

theorem nl_not_mem_line3 {name ext : List Char} {N : Nat} (hn : '\n' ∉ name)
    (he : '\n' ∉ ext) :
    '\n' ∉ name ++ '|' :: (natToDecimal N ++ '|' :: ext) := by
  intro hm
  rcases List.mem_append.mp hm with hm | hm
  · exact hn hm
  · rcases List.mem_cons.mp hm with hm | hm
    · simp at hm
    · rcases List.mem_append.mp hm with hm | hm
      · exact nl_not_mem_natToDecimal N hm
      · rcases List.mem_cons.mp hm with hm | hm
        · simp at hm
        · exact he hm

theorem splitHeaderData_serverEncode {name : List Char} {N : Nat}
    (leftover : List Char) (hn : '\n' ∉ name) :
    splitHeaderData (serverEncode name N ++ leftover) =
      (name ++ '|' :: natToDecimal N, leftover) := by
  have hassoc : serverEncode name N ++ leftover =
      (name ++ '|' :: natToDecimal N) ++ '\n' :: leftover := by
    simp [serverEncode]
  rw [hassoc]
  exact splitHeaderData_append leftover (nl_not_mem_line2 hn)

theorem splitHeaderData_encodeHeader3 {name ext : List Char} {N : Nat}
    (leftover : List Char) (hn : '\n' ∉ name) (he : '\n' ∉ ext) :
    splitHeaderData (encodeHeader3 name N ext ++ leftover) =
      (name ++ '|' :: (natToDecimal N ++ '|' :: ext), leftover) := by
  have hassoc : encodeHeader3 name N ext ++ leftover =
      (name ++ '|' :: (natToDecimal N ++ '|' :: ext)) ++ '\n' :: leftover := by
    simp [encodeHeader3]
  rw [hassoc]
  exact splitHeaderData_append leftover (nl_not_mem_line3 hn he)

/-- C3 counterexample: both senders of this repository emit the two-field
line `name|size\n`, but the tk receiver (`file_client_new.py`) unpacks three
fields, so decoding the sender's encoding of the header `("a", 1)` raises
`ValueError("Invalid file header format")` instead of returning the fields —
the round trip fails as stated. -/
theorem c3_roundtrip_counterexample :
    parseHeaderC (splitHeaderData (serverEncode "a".data 1)).1 =
      .error (.valueErr invalidHdrMsg) := by
  have hsplit := @splitHeaderData_serverEncode "a".data 1 []
    (by decide)
  rw [show serverEncode "a".data 1 = serverEncode "a".data 1 ++ [] from
    (List.append_nil _).symm, hsplit]
  rw [parseHeaderC, splitPipe_append _ (by decide),
    splitPipe_no_pipe (pipe_not_mem_natToDecimal 1)]

/-- C3 amended: the senders' two-field encoding decodes on the flet receiver
back to `(name, N)` unchanged, for `name` free of `'|'` and `'\n'`; the
three-field line `name|N|extension` of §4.2 — which no sender under `src/`
emits — decodes on the tk receiver back to `(name, N, extension)` unchanged,
for fields free of `'|'` and `'\n'`. -/
theorem c3_roundtrip_amended (name ext : List Char) (N : Nat)
    (hn1 : '|' ∉ name) (hn2 : '\n' ∉ name) (he1 : '|' ∉ ext)
    (he2 : '\n' ∉ ext) :
    (splitHeaderData (serverEncode name N) =
        (name ++ '|' :: natToDecimal N, []) ∧
      parseHeaderF (name ++ '|' :: natToDecimal N) = .ok (name, N)) ∧
    (splitHeaderData (encodeHeader3 name N ext) =
        (name ++ '|' :: (natToDecimal N ++ '|' :: ext), []) ∧
      parseHeaderC (name ++ '|' :: (natToDecimal N ++ '|' :: ext)) =
        .ok (name, N, ext)) := by
  refine ⟨⟨?_, parseHeaderF_twoField hn1⟩, ⟨?_, parseHeaderC_threeField hn1 he1⟩⟩
  · have := @splitHeaderData_serverEncode name N [] hn2
    simpa using this
  · have := @splitHeaderData_encodeHeader3 name ext N [] hn2 he2
    simpa using this

theorem c3_roundtrip_amended_witness :
    ('|' ∉ "a".data ∧ '\n' ∉ "a".data ∧ '|' ∉ ".txt".data ∧
      '\n' ∉ ".txt".data) ∧
    ((splitHeaderData (serverEncode "a".data 42) =
        ("a".data ++ '|' :: natToDecimal 42, []) ∧
      parseHeaderF ("a".data ++ '|' :: natToDecimal 42) =
        .ok ("a".data, 42)) ∧
    (splitHeaderData (encodeHeader3 "a".data 42 ".txt".data) =
        ("a".data ++ '|' :: (natToDecimal 42 ++ '|' :: ".txt".data), []) ∧
      parseHeaderC ("a".data ++ '|' :: (natToDecimal 42 ++ '|' ::
          ".txt".data)) = .ok ("a".data, 42, ".txt".data))) :=
  ⟨⟨by decide, by decide, by decide, by decide⟩,
    c3_roundtrip_amended "a".data ".txt".data 42 (by decide) (by decide)
      (by decide) (by decide)⟩

/-! ### C4 -/

theorem encode2_chunk_facts {name payload : List Char} {N : Nat} :
    serverEncode name N ++ payload ≠ [] ∧
    '\n' ∈ serverEncode name N ++ payload := by
  have hmem : '\n' ∈ serverEncode name N ++ payload := by
    simp [serverEncode]
  exact ⟨List.ne_nil_of_mem hmem, hmem⟩

theorem encode3_chunk_facts {name ext payload : List Char} {N : Nat} :
    encodeHeader3 name N ext ++ payload ≠ [] ∧
    '\n' ∈ encodeHeader3 name N ext ++ payload := by
  have hmem : '\n' ∈ encodeHeader3 name N ext ++ payload := by
    simp [encodeHeader3]
  exact ⟨List.ne_nil_of_mem hmem, hmem⟩

/-- A flet `receive_file` run whose single buffered chunk holds a valid
two-field header for `N` bytes plus fewer than `N` payload bytes, after
which the peer is gone: the loop breaks on the empty read, the final 100%
callback still fires, and the call returns `True` with an
Incomplete-status record. -/
theorem fletPrematureRun (st : ClientState) (p : List Char)
    (name payload : List Char) (N : Nat) (f0 : Option (List Char))
    (tk : Nat → Bool) (h : st.connected = true) (hn1 : '\n' ∉ name)
    (hn2 : '|' ∉ name) (hlt : payload.length < N)
    (hlen : (serverEncode name N ++ payload).length ≤ 4096) :
    (receiveF st p f0 [.data (serverEncode name N ++ payload)] tk).outcome =
      .ret (.bool true) ∧
    (receiveF st p f0 [.data (serverEncode name N ++ payload)] tk).records =
      [fletFinalRec p name N payload.length] ∧
    (receiveF st p f0 [.data (serverEncode name N ++ payload)] tk).prog =
      [(100, payload.length, N)] := by
  obtain ⟨hne, hmem⟩ := @encode2_chunk_facts name payload N
  have hh := @headerLoopF_single _ [] hne hlen hmem
  have hsplit := @splitHeaderData_serverEncode name N payload hn1
  have hrecv : recv (min 4096 (N - payload.length)) ([] : List StreamEvent) =
      (.bytes [], []) := rfl
  have hpay : payloadLoop false N tk [] payload payload.length [] 0 =
      { kind := .closedBreak, file := payload, received := payload.length,
        s := [], prog := [], recvCalls := 1 } := by
    rw [payloadLoop_step_closed hlt hrecv]
    simp
  rw [receiveF, if_pos h]
  simp only [hh, hsplit, parseHeaderF_twoField hn2, hpay]
  simp

/-- C4 counterexample: a premature close on the flet client. The server
declares 10 bytes, 3 arrive, the peer closes: `receive_file` returns `True`
(success) rather than failing with an error, recording only an
`Incomplete (3/10 bytes)` status. -/
theorem c4_premature_close_counterexample :
    (receiveF { sock := some 0, connected := true } "o.x".data none
      [.data (serverEncode "f".data 10 ++ "abc".data)]
      (fun _ => false)).outcome = .ret (.bool true) ∧
    (receiveF { sock := some 0, connected := true } "o.x".data none
      [.data (serverEncode "f".data 10 ++ "abc".data)]
      (fun _ => false)).records.map (fun rec => rec.status) =
      [incompleteStatus 3 10] := by
  have hrun := fletPrematureRun { sock := some 0, connected := true }
    "o.x".data "f".data "abc".data 10 none (fun _ => false) rfl
    (by decide) (by decide) (by decide)
    (by simp [serverEncode, natToDecimal, decimalAux])
  refine ⟨hrun.1, ?_⟩
  rw [hrun.2.1]
  simp [fletFinalRec]

/-- A tk-client `receive_file` run whose single buffered chunk holds a valid
three-field header for `N` bytes plus fewer than `N` payload bytes, after
which the peer is gone: attempt 0 raises
`ConnectionError("Connection lost during transfer")`, the reconnect guard
skips attempts 1 and 2, and the call appends one Failed record and
re-raises. -/
theorem clientPrematureRun (st : ClientState) (p : List Char)
    (name ext payload : List Char) (N : Nat) (f0 : Option (List Char))
    (tk dial : Nat → Bool) (h : st.connected = true) (hn1 : '\n' ∉ name)
    (hn2 : '|' ∉ name) (he1 : '\n' ∉ ext) (he2 : '|' ∉ ext)
    (hpe : splitextExt p ≠ []) (hlt : payload.length < N)
    (hlen : (encodeHeader3 name N ext ++ payload).length ≤ 4096) :
    (receiveC st p f0 [.data (encodeHeader3 name N ext ++ payload)] tk
      dial).outcome = .raised (.connErr connLostMsg) ∧
    (receiveC st p f0 [.data (encodeHeader3 name N ext ++ payload)] tk
      dial).records = [failedRec p (.connErr connLostMsg)] ∧
    (receiveC st p f0 [.data (encodeHeader3 name N ext ++ payload)] tk
      dial).file = some payload := by
  obtain ⟨hne, hmem⟩ := @encode3_chunk_facts name ext payload N
  have hh := @headerLoopC_single true _ [] hne hlen hmem
  have hsplit := @splitHeaderData_encodeHeader3 name ext N payload hn1 he1
  have hp : parseHeaderC (splitHeaderData
      (encodeHeader3 name N ext ++ payload)).1 = .ok (name, N, ext) := by
    rw [hsplit]
    exact parseHeaderC_threeField hn2 he2
  have hrecv : recv (min 4096 (N - payload.length)) ([] : List StreamEvent) =
      (.bytes [], []) := rfl
  have hpay : payloadLoop true N tk [] payload payload.length [] 0 =
      { kind := .raisedK (.connErr connLostMsg), file := payload,
        received := payload.length, s := [], prog := [], recvCalls := 1 } := by
    rw [payloadLoop_step_closed hlt hrecv]
    simp
  rw [receiveC_shape st p f0 _ tk dial h]
  rw [attemptStep0_eq_body p f0 tk hh]
  rw [attemptBody0_eq p f0 _ _ tk hp]
  simp only [hsplit, hpay]
  rw [if_neg hpe]
  simp

/-- C4 amended: when the stream yields zero bytes before `received == N`
(`N > 0`) with no retries remaining, the ledger record is non-Complete in
both clients, but only the tk client fails with an error: it raises the
last `ConnectionError` and records `Failed: ...`, while the flet client
returns `True` (success) and records `Incomplete (r/N bytes)`. -/
theorem c4_premature_close_amended (st : ClientState) (p : List Char)
    (name ext payload : List Char) (N : Nat) (f0 : Option (List Char))
    (tk dial : Nat → Bool) (h : st.connected = true) (hn1 : '\n' ∉ name)
    (hn2 : '|' ∉ name) (he1 : '\n' ∉ ext) (he2 : '|' ∉ ext)
    (hpe : splitextExt p ≠ []) (hlt : payload.length < N)
    (hlen2 : (serverEncode name N ++ payload).length ≤ 4096)
    (hlen3 : (encodeHeader3 name N ext ++ payload).length ≤ 4096) :
    ((receiveF st p f0 [.data (serverEncode name N ++ payload)] tk).outcome =
      .ret (.bool true) ∧
    (receiveF st p f0 [.data (serverEncode name N ++ payload)]
      tk).records.map (fun rec => rec.status) =
      [incompleteStatus payload.length N]) ∧
    ((receiveC st p f0 [.data (encodeHeader3 name N ext ++ payload)] tk
      dial).outcome = .raised (.connErr connLostMsg) ∧
    (receiveC st p f0 [.data (encodeHeader3 name N ext ++ payload)] tk
      dial).records.map (fun rec => rec.status) =
      [failedStatus (.connErr connLostMsg)]) := by
  constructor
  · obtain ⟨h1, h2, -⟩ := fletPrematureRun st p name payload N f0 tk h hn1
      hn2 hlt hlen2
    refine ⟨h1, ?_⟩
    rw [h2]
    simp only [fletFinalRec, List.map]
    rw [if_neg (by omega)]
  · obtain ⟨h1, h2, -⟩ := clientPrematureRun st p name ext payload N f0 tk
      dial h hn1 hn2 he1 he2 hpe hlt hlen3
    refine ⟨h1, ?_⟩
    rw [h2]
    simp [failedRec]

theorem c4_premature_close_amended_witness :
    (({ sock := some 0, connected := true } : ClientState).connected = true ∧
      '\n' ∉ "f".data ∧ '|' ∉ "f".data ∧ '\n' ∉ ".x".data ∧
      '|' ∉ ".x".data ∧ splitextExt "o.x".data ≠ [] ∧
      ("abc".data : List Char).length < 10) ∧
    (((receiveF { sock := some 0, connected := true } "o.x".data none
        [.data (serverEncode "f".data 10 ++ "abc".data)]
        (fun _ => false)).outcome = .ret (.bool true) ∧
      (receiveF { sock := some 0, connected := true } "o.x".data none
        [.data (serverEncode "f".data 10 ++ "abc".data)]
        (fun _ => false)).records.map (fun rec => rec.status) =
        [incompleteStatus ("abc".data : List Char).length 10]) ∧
    ((receiveC { sock := some 0, connected := true } "o.x".data none
        [.data (encodeHeader3 "f".data 10 ".x".data ++ "abc".data)]
        (fun _ => false) (fun _ => false)).outcome =
        .raised (.connErr connLostMsg) ∧
      (receiveC { sock := some 0, connected := true } "o.x".data none
        [.data (encodeHeader3 "f".data 10 ".x".data ++ "abc".data)]
        (fun _ => false) (fun _ => false)).records.map
          (fun rec => rec.status) =
        [failedStatus (.connErr connLostMsg)])) :=
  ⟨⟨rfl, by decide, by decide, by decide, by decide, by decide, by decide⟩,
    c4_premature_close_amended _ _ "f".data ".x".data "abc".data 10 none
      _ _ rfl (by decide) (by decide) (by decide) (by decide) (by decide)
      (by decide)
      (by simp [serverEncode, natToDecimal, decimalAux])
      (by simp [encodeHeader3, natToDecimal, decimalAux])⟩

/-! ### C8 -/

/-- C8: for a declared size of 0, `receive_file` never executes the payload
loop body (no `recv` call is made, so the `received/size` percent
expression — the only division — is never evaluated and the call does not
block on a further read), immediately fires the single final progress
callback `(100, received, 0)`, records a Complete ledger entry, and returns
`True`. Holds for both clients. -/
theorem c8_zero_size_immediate_complete (st : ClientState)
    (p name ext leftover : List Char) (rest : List StreamEvent)
    (f0 : Option (List Char)) (tk dial : Nat → Bool)
    (h : st.connected = true)
    (hn1 : '\n' ∉ name) (hn2 : '|' ∉ name)
    (he1 : '\n' ∉ ext) (he2 : '|' ∉ ext)
    (hlen3 : (encodeHeader3 name 0 ext ++ leftover).length ≤ 4096)
    (hlen2 : (serverEncode name 0 ++ leftover).length ≤ 4096) :
    ((receiveC st p f0 (.data (encodeHeader3 name 0 ext ++ leftover) :: rest)
        tk dial).outcome = .ret (.bool true) ∧
      (receiveC st p f0 (.data (encodeHeader3 name 0 ext ++ leftover) ::
        rest) tk dial).records.map (fun rec => rec.status) = [completeStr] ∧
      (receiveC st p f0 (.data (encodeHeader3 name 0 ext ++ leftover) ::
        rest) tk dial).prog = [(100, leftover.length, 0)] ∧
      (receiveC st p f0 (.data (encodeHeader3 name 0 ext ++ leftover) ::
        rest) tk dial).traces.map (fun t => t.recvCalls) = [0]) ∧
    ((receiveF st p f0 (.data (serverEncode name 0 ++ leftover) :: rest)
        tk).outcome = .ret (.bool true) ∧
      (receiveF st p f0 (.data (serverEncode name 0 ++ leftover) :: rest)
        tk).records.map (fun rec => rec.status) = [completeStr] ∧
      (receiveF st p f0 (.data (serverEncode name 0 ++ leftover) :: rest)
        tk).prog = [(100, leftover.length, 0)] ∧
      (receiveF st p f0 (.data (serverEncode name 0 ++ leftover) :: rest)
        tk).traces.map (fun t => t.recvCalls) = [0]) := by
  have hpayC : payloadLoop true 0 tk rest leftover leftover.length [] 0 =
      { kind := .done, file := leftover, received := leftover.length,
        s := rest, prog := [], recvCalls := 0 } :=
    payloadLoop_stop (by omega)
  have hpayF : payloadLoop false 0 tk rest leftover leftover.length [] 0 =
      { kind := .done, file := leftover, received := leftover.length,
        s := rest, prog := [], recvCalls := 0 } :=
    payloadLoop_stop (by omega)
  constructor
  · obtain ⟨hne, hmem⟩ := @encode3_chunk_facts name ext leftover 0
    have hh := @headerLoopC_single true _ rest hne hlen3
      hmem
    have hsplit := @splitHeaderData_encodeHeader3 name ext 0 leftover hn1 he1
    have hp : parseHeaderC (splitHeaderData
        (encodeHeader3 name 0 ext ++ leftover)).1 = .ok (name, 0, ext) := by
      rw [hsplit]
      exact parseHeaderC_threeField hn2 he2
    rw [receiveC_shape st p f0 _ tk dial h]
    rw [attemptStep0_eq_body p f0 tk hh]
    rw [attemptBody0_eq p f0 _ _ tk hp]
    simp only [hsplit, hpayC]
    simp [completeRec, mkTrace0]
  · obtain ⟨hne, hmem⟩ := @encode2_chunk_facts name leftover 0
    have hh := @headerLoopF_single _ rest hne hlen2 hmem
    have hsplit := @splitHeaderData_serverEncode name 0 leftover hn1
    rw [receiveF, if_pos h]
    simp only [hh, hsplit, parseHeaderF_twoField hn2, hpayF]
    simp [fletFinalRec, mkTrace0]

theorem c8_zero_size_immediate_complete_witness :
    (({ sock := some 0, connected := true } : ClientState).connected =
      true ∧ '\n' ∉ "f".data ∧ '|' ∉ "f".data ∧ '\n' ∉ ".x".data ∧
      '|' ∉ ".x".data) ∧
    (((receiveC { sock := some 0, connected := true } "o.x".data none
        (.data (encodeHeader3 "f".data 0 ".x".data ++ "ab".data) :: [.hup])
        (fun _ => false) (fun _ => false)).outcome = .ret (.bool true) ∧
      (receiveC { sock := some 0, connected := true } "o.x".data none
        (.data (encodeHeader3 "f".data 0 ".x".data ++ "ab".data) :: [.hup])
        (fun _ => false) (fun _ => false)).records.map
          (fun rec => rec.status) = [completeStr] ∧
      (receiveC { sock := some 0, connected := true } "o.x".data none
        (.data (encodeHeader3 "f".data 0 ".x".data ++ "ab".data) :: [.hup])
        (fun _ => false) (fun _ => false)).prog =
          [(100, ("ab".data : List Char).length, 0)] ∧
      (receiveC { sock := some 0, connected := true } "o.x".data none
        (.data (encodeHeader3 "f".data 0 ".x".data ++ "ab".data) :: [.hup])
        (fun _ => false) (fun _ => false)).traces.map
          (fun t => t.recvCalls) = [0]) ∧
    ((receiveF { sock := some 0, connected := true } "o.x".data none
        (.data (serverEncode "f".data 0 ++ "ab".data) :: [.hup])
        (fun _ => false)).outcome = .ret (.bool true) ∧
      (receiveF { sock := some 0, connected := true } "o.x".data none
        (.data (serverEncode "f".data 0 ++ "ab".data) :: [.hup])
        (fun _ => false)).records.map (fun rec => rec.status) =
          [completeStr] ∧
      (receiveF { sock := some 0, connected := true } "o.x".data none
        (.data (serverEncode "f".data 0 ++ "ab".data) :: [.hup])
        (fun _ => false)).prog = [(100, ("ab".data : List Char).length, 0)] ∧
      (receiveF { sock := some 0, connected := true } "o.x".data none
        (.data (serverEncode "f".data 0 ++ "ab".data) :: [.hup])
        (fun _ => false)).traces.map (fun t => t.recvCalls) = [0])) :=
  ⟨⟨rfl, by decide, by decide, by decide, by decide⟩,
    c8_zero_size_immediate_complete _ _ "f".data ".x".data "ab".data
      [.hup] none _ _ rfl (by decide) (by decide) (by decide) (by decide)
      (by simp [encodeHeader3, natToDecimal])
      (by simp [serverEncode, natToDecimal])⟩

/-! ### C1 -/

/-- C1: evidence of the code bug. A transfer of 5000 intended bytes is
interrupted after 1000 bytes with retries remaining, yet no resume ever
happens: `connect` is still guarded by `self.connected == True`, so every
retry attempt returns `False` and is skipped (`traces.length = 1` — only
attempt 0 ever reached the payload phase), the call terminates by raising
`ConnectionError("Connection lost during transfer")` with a Failed record,
and the destination file holds exactly the first 1000 bytes — not the 5000
intended bytes the claim demands. -/
theorem c1_retry_never_resumes :
    (receiveC { sock := some 0, connected := true } "out.bin".data none
      [.data "data|5000|.bin\n".data, .data (List.replicate 1000 'x'), .hup]
      (fun _ => false) (fun _ => false)).outcome =
        .raised (.connErr connLostMsg) ∧
    (receiveC { sock := some 0, connected := true } "out.bin".data none
      [.data "data|5000|.bin\n".data, .data (List.replicate 1000 'x'), .hup]
      (fun _ => false) (fun _ => false)).records =
        [failedRec "out.bin".data (.connErr connLostMsg)] ∧
    (receiveC { sock := some 0, connected := true } "out.bin".data none
      [.data "data|5000|.bin\n".data, .data (List.replicate 1000 'x'), .hup]
      (fun _ => false) (fun _ => false)).file =
        some (List.replicate 1000 'x') ∧
    (receiveC { sock := some 0, connected := true } "out.bin".data none
      [.data "data|5000|.bin\n".data, .data (List.replicate 1000 'x'), .hup]
      (fun _ => false) (fun _ => false)).file.map List.length = some 1000 ∧
    ¬ ((receiveC { sock := some 0, connected := true } "out.bin".data none
      [.data "data|5000|.bin\n".data, .data (List.replicate 1000 'x'), .hup]
      (fun _ => false) (fun _ => false)).file.map List.length = some 5000) ∧
    (receiveC { sock := some 0, connected := true } "out.bin".data none
      [.data "data|5000|.bin\n".data, .data (List.replicate 1000 'x'), .hup]
      (fun _ => false) (fun _ => false)).traces.length = 1 := by
  have hne1 : ("data|5000|.bin\n".data : List Char) ≠ [] := by decide
  have hlen1 : ("data|5000|.bin\n".data : List Char).length ≤ 4096 := by
    decide
  have hmem1 : '\n' ∈ "data|5000|.bin\n".data := by decide
  have hh := @headerLoopC_single true _
    [.data (List.replicate 1000 'x'), .hup] hne1 hlen1 hmem1
  have hp : parseHeaderC (splitHeaderData "data|5000|.bin\n".data).1 =
      .ok ("data".data, 5000, ".bin".data) := by rfl
  have hsplit2 : (splitHeaderData "data|5000|.bin\n".data).2 = [] := by rfl
  have hrepl : List.replicate 1000 'x' = 'x' :: List.replicate 999 'x' := rfl
  have hne2 : List.replicate 1000 'x' ≠ [] := by
    intro hcon
    have := congrArg List.length hcon
    rw [List.length_replicate] at this
    simp at this
  have hlen2 : (List.replicate 1000 'x').length ≤ 4096 := by
    rw [List.length_replicate]
    norm_num
  have hlc : (0 + ('x' :: List.replicate 999 'x').length) = 1000 := by
    rw [List.length_cons, List.length_replicate]
  have hr1 : recv (min 4096 (5000 - 0))
      [.data (List.replicate 1000 'x'), .hup] =
      (.bytes ('x' :: List.replicate 999 'x'), [.hup]) := by
    rw [show min 4096 (5000 - 0) = 4096 from by norm_num]
    rw [← hrepl]
    exact recv_single_chunk hne2 hlen2
  have hr2 : recv (min 4096 (5000 -
      (0 + ('x' :: List.replicate 999 'x').length))) [StreamEvent.hup] =
      (.bytes [], []) := by
    rw [hlc]
    rfl
  have hl2 : 0 + ('x' :: List.replicate 999 'x').length < 5000 := by
    rw [hlc]
    norm_num
  have hloop : payloadLoop true 5000 (fun _ => false)
      [.data (List.replicate 1000 'x'), .hup] [] 0 [] 0 =
      { kind := .raisedK (.connErr connLostMsg),
        file := 'x' :: List.replicate 999 'x', received := 1000, s := [],
        prog := [], recvCalls := 2 } := by
    rw [payloadLoop_step_data (by norm_num) hr1]
    rw [payloadLoop_step_closed hl2 hr2]
    rw [if_pos rfl]
    rw [hlc]
    rw [List.nil_append]
    rw [if_neg (by decide : ¬ (false = true))]
  rw [receiveC_shape _ _ _ _ _ _ rfl]
  rw [attemptStep0_eq_body _ _ _ hh]
  rw [attemptBody0_eq _ _ _ _ _ hp]
  simp only [hsplit2, List.length_nil, hloop]
  rw [if_neg (by decide : ¬ splitextExt "out.bin".data = [])]
  refine ⟨trivial, by rw [List.nil_append], ?_, ?_, ?_, rfl⟩
  · rw [hrepl]
  · show some ('x' :: List.replicate 999 'x').length = some 1000
    rw [List.length_cons, List.length_replicate]
  · intro hcon
    have hcon' : some ('x' :: List.replicate 999 'x').length = some 5000 :=
      hcon
    have h3 := Option.some.inj hcon'
    rw [List.length_cons, List.length_replicate] at h3
    omega

/-! ### C7 -/

theorem replicate_noNlData (n : Nat) (hn : 0 < n) :
    noNlData [.data (List.replicate n 'a')] := by
  intro ev hev
  simp only [List.mem_singleton] at hev
  subst hev
  refine ⟨List.replicate n 'a', rfl, ?_, ?_⟩
  · intro hcon
    have := congrArg List.length hcon
    rw [List.length_replicate] at this
    simp at this
    omega
  · intro hm
    rw [List.mem_replicate] at hm
    exact absurd hm.2 (by decide)

/-- C7 counterexample: the flet receiver has no header-size cap. Feeding it
1,024,001 buffered bytes with no newline and then end-of-stream makes its
header loop buffer past the 1,024,000-byte limit and fail with the
connection-closed `ConnectionError` — never with the oversized-header
`ValueError` the claim requires of every receiver variant; the whole
`receive_file` call raises that `ConnectionError`. -/
theorem c7_flet_no_cap_counterexample :
    headerLoopF [] [.data (List.replicate 1024001 'a')] =
      .raisedF (.connErr connClosedHdrMsg) [] ∧
    (∀ s2, headerLoopF [] [.data (List.replicate 1024001 'a')] ≠
      .raisedF (.valueErr oversizedMsg) s2) ∧
    (receiveF { sock := some 0, connected := true } "o.x".data none
      [.data (List.replicate 1024001 'a')] (fun _ => false)).outcome =
      .raised (.connErr connClosedHdrMsg) := by
  have hdata := replicate_noNlData 1024001 (by norm_num)
  have h := headerLoopF_noNl [] [.data (List.replicate 1024001 'a')]
    (by simp) hdata
  refine ⟨h, ?_, ?_⟩
  · intro s2 hcon
    rw [h] at hcon
    simp [connClosedHdrMsg, oversizedMsg] at hcon
  · rw [receiveF, if_pos rfl]
    simp only [h]
    rfl

/-- C7 amended: only the tk receiver (`file_client_new.py`) enforces the
cap — whenever the stream supplies more than 1,024,000 bytes with no
newline, its header loop fails with the oversized-header `ValueError`; the
flet receiver (`flet_client.py`) has no cap and keeps buffering, failing
with the connection-closed `ConnectionError` once such a stream ends. -/
theorem c7_oversized_header_amended (notLast : Bool) (s : List StreamEvent)
    (hs : noNlData s) (htot : 1024000 < streamBytes s) :
    (∃ s2, headerLoopC notLast [] s =
      .raisedH (.valueErr oversizedMsg) s2) ∧
    headerLoopF [] s = .raisedF (.connErr connClosedHdrMsg) [] := by
  constructor
  · exact headerLoopC_oversized notLast [] s (by simp) (by simp) hs
      (by simpa using htot)
  · exact headerLoopF_noNl [] s (by simp) hs

theorem streamBytes_single (bs : List Char) :
    streamBytes [.data bs] = bs.length := by
  simp [streamBytes]

theorem c7_oversized_header_amended_witness :
    (noNlData [.data (List.replicate 1024001 'a')] ∧
      1024000 < streamBytes [.data (List.replicate 1024001 'a')]) ∧
    ((∃ s2, headerLoopC true [] [.data (List.replicate 1024001 'a')] =
      .raisedH (.valueErr oversizedMsg) s2) ∧
    headerLoopF [] [.data (List.replicate 1024001 'a')] =
      .raisedF (.connErr connClosedHdrMsg) []) :=
  ⟨⟨replicate_noNlData 1024001 (by norm_num), by
      rw [streamBytes_single, List.length_replicate]; norm_num⟩,
    c7_oversized_header_amended true _
      (replicate_noNlData 1024001 (by norm_num))
      (by rw [streamBytes_single, List.length_replicate]; norm_num)⟩

/-! ### C6 -/

/-- The sequence of reads `file.read(4096)` performs on a file. -/
def chunkSplit : List Char → List (List Char)
  | [] => []
  | c :: cs => (c :: cs).take 4096 :: chunkSplit ((c :: cs).drop 4096)
termination_by l => l.length
decreasing_by simp; omega

/-- Running totals of a list of chunk sizes, starting from `acc`. -/
def partSums (acc : Nat) : List Nat → List Nat
  | [] => []
  | n :: ns => (acc + n) :: partSums (acc + n) ns

theorem chunkSplit_cons (c : Char) (cs : List Char) :
    chunkSplit (c :: cs) =
      (c :: cs).take 4096 :: chunkSplit ((c :: cs).drop 4096) := by
  rw [chunkSplit.eq_def]

theorem chunkSplit_nil : chunkSplit [] = [] := by
  rw [chunkSplit.eq_def]

theorem chunkSplit_flatten (content : List Char) :
    (chunkSplit content).flatten = content := by
  induction content using chunkSplit.induct with
  | case1 => rw [chunkSplit_nil]; rfl
  | case2 c cs ih =>
    rw [chunkSplit_cons, List.flatten_cons, ih]
    exact List.take_append_drop 4096 (c :: cs)

theorem chunkSplit_bounded (content : List Char) :
    ∀ c ∈ chunkSplit content, c.length ≤ 4096 := by
  induction content using chunkSplit.induct with
  | case1 => intro c hc; simp [chunkSplit] at hc
  | case2 c cs ih =>
    intro ck hck
    rw [chunkSplit_cons] at hck
    rcases List.mem_cons.mp hck with rfl | hck2
    · simpa using List.length_take_le 4096 (c :: cs)
    · exact ih ck hck2

theorem sendLoop_general (size : Nat) :
    ∀ (content : List Char) (sent : Nat) (wire : List Char)
      (chunks : List (List Char)) (prog : List Nat),
      sendLoop size content sent wire chunks prog =
        { wire := wire ++ content,
          chunks := chunks ++ chunkSplit content,
          prog := prog ++ (partSums sent ((chunkSplit content).map
            List.length)).map (fun t => t * 100 / size),
          sent := sent + content.length } := by
  intro content
  induction content using chunkSplit.induct with
  | case1 =>
    intro sent wire chunks prog
    simp [sendLoop, chunkSplit, partSums]
  | case2 c cs ih =>
    intro sent wire chunks prog
    rw [sendLoop]
    rw [ih]
    rw [chunkSplit_cons]
    have hlen : ((c :: cs).take 4096).length + ((c :: cs).drop 4096).length =
        (c :: cs).length := by
      rw [List.length_take, List.length_drop]
      have := List.length_pos.mpr (List.cons_ne_nil c cs)
      omega
    simp only [List.map_cons, partSums, List.append_assoc,
      List.singleton_append, SendOut.mk.injEq]
    refine ⟨?_, ?_, ?_, ?_⟩
    · rw [List.take_append_drop]
    · trivial
    · trivial
    · omega

/-- C6 amended: `send_file` writes the encoded header line first, reads the
source in chunks of at most 4096 bytes writing each fully before the next,
invokes the progress callback after each chunk with
`int(sent_bytes / file_size * 100)` (the floor of the running total's
percentage), transmits exactly `size` payload bytes after the header — and
returns `True`, a success flag, not the total bytes sent. -/
theorem c6_send_chunks_progress_and_return (path content client :
    List Char) :
    (sendFile path content client).wire =
      serverEncode (basename path) content.length ++ content ∧
    (sendFile path content client).chunks.flatten = content ∧
    (∀ c ∈ (sendFile path content client).chunks, c.length ≤ 4096) ∧
    (sendFile path content client).prog =
      (partSums 0 ((sendFile path content client).chunks.map
        List.length)).map (fun t => t * 100 / content.length) ∧
    (sendFile path content client).retVal = .bool true := by
  have hrun : sendFile path content client =
      { wire := serverEncode (basename path) content.length ++ content,
        chunks := chunkSplit content,
        prog := (partSums 0 ((chunkSplit content).map List.length)).map
          (fun t => t * 100 / content.length),
        retVal := .bool true,
        records := (sendFile path content client).records } := by
    rw [sendFile]
    simp only [sendLoop_general]
    rfl
  rw [hrun]
  refine ⟨rfl, chunkSplit_flatten content, chunkSplit_bounded content, rfl,
    rfl⟩

/-- C6 counterexample: `send_file` returns the constant `True`, not the
total bytes sent — for a 2-byte source file the returned Python value does
not equal 2 (Python compares `True == 1`). -/
theorem c6_returns_true_not_byte_count :
    (['a', 'b'] : List Char).length = 2 ∧
    (sendFile "f".data ['a', 'b'] "c".data).retVal = .bool true ∧
    pyEq (sendFile "f".data ['a', 'b'] "c".data).retVal (.int 2) = false :=
  ⟨rfl, rfl, rfl⟩
